import Mathlib

/-!
Kubernetes endpoint URL construction (`src/protocols/kubernetes/url.c`)

A shallow embedding of the three functions of `url.c`:

* `guac_kubernetes_escape_url_component`
* `guac_kubernetes_append_endpoint_param`
* `guac_kubernetes_endpoint_uri`

Conventions of the embedding.

* A byte is a `Nat` (well-formed when `< 256`).  A `char` array is a `List Nat`
  whose length is the size of the array; a store outside the array yields
  `none`, so `none` stands for an out-of-bounds access.
* A C string argument is the list of its bytes; reading stops at the first
  `0` byte or at the end of the list, whichever comes first.
* Whether plain `char` is signed is implementation defined; every function that
  depends on it takes the flag `sg` (`true`: signed, as on x86 and x86-64).
* `GUAC_KUBERNETES_MAX_ENDPOINT_LENGTH` is declared in `url.h`; it is the
  parameter `M`.  Stack arrays are uninitialised: their initial contents are
  given by an arbitrary function `junk`.
-/

namespace GuacK8s

/-- Memory of a `char` array. -/
abbrev Buf := List Nat

/-- Largest value of a C `int`. -/
def INT_MAX : Int := 2147483647

/-- Bytes of a string literal. -/
def lit (s : String) : List Nat := s.toList.map Char.toNat

/-- The C string starting at the head of `s`: the bytes before the first NUL. -/
def cstr (s : List Nat) : List Nat := s.takeWhile (fun b => b != 0)

/-- Store the bytes `vs` at offsets `i, i+1, ...` of the array `b`. -/
def store (b : Buf) (i : Nat) (vs : List Nat) : Option Buf :=
  if i + vs.length ≤ b.length then some (b.take i ++ vs ++ b.drop (i + vs.length)) else none

/-- An uninitialised array of `n` bytes. -/
def uninit (junk : Nat → Nat) (n : Nat) : Buf := (List.range n).map junk

/-- Conversion of an `int` to `size_t` (64 bit). -/
def size_t (n : Int) : Nat := (n % 18446744073709551616).toNat

/-- Conversion of an `int` to `unsigned int` (32 bit). -/
def unsigned (n : Int) : Nat := (n % 4294967296).toNat

/-- The value of the byte `b` as a plain `char`. -/
def toChar (sg : Bool) (b : Nat) : Int := if sg && decide (128 ≤ b) then (b : Int) - 256 else b

/-- Model of `snprintf(b + off, size, fmt, ...)` where `text` is the complete
formatted output: at most `size - 1` bytes of `text` are stored, followed by a
NUL; nothing is stored when `size` is zero.  The result is the length of the
complete output, or a negative value when that length exceeds `INT_MAX`. -/
def snprintf (b : Buf) (off : Nat) (size : Nat) (text : List Nat) : Option (Int × Buf) :=
  let written : Int := if (text.length : Int) ≤ INT_MAX then (text.length : Int) else -1
  if size = 0 then some (written, b)
  else (store b off (text.take (size - 1) ++ [0])).map (fun b1 => (written, b1))

/-- Uppercase hexadecimal digit. -/
def hexDigit (d : Nat) : Nat := if d < 10 then 48 + d else 55 + d

/-- Digits of `u` in base 16, most significant first, prepended to `acc`. -/
def hexAux : Nat → Nat → List Nat → List Nat
  | 0, _, acc => acc
  | fuel + 1, u, acc =>
    if u / 16 = 0 then hexDigit (u % 16) :: acc
    else hexAux fuel (u / 16) (hexDigit (u % 16) :: acc)

/-- Output of the conversion `%02X` for the `unsigned int` `u` (at most eight
digits, padded with zeros to at least two). -/
def fmt02X (u : Nat) : List Nat :=
  let d := hexAux 8 u []
  List.replicate (2 - d.length) 48 ++ d

/-- Model of `strchr(s, c) != NULL`: the terminator of `s` is part of the search. -/
def strchr (sg : Bool) (s : List Nat) (c : Int) : Bool :=
  ((s ++ [0]).map (toChar sg)).contains c

/-- Model of `guac_kubernetes_is_url_safe` (lines 37-42). -/
def guac_kubernetes_is_url_safe (sg : Bool) (c : Int) : Bool :=
  (decide (65 ≤ c) && decide (c ≤ 90))
    || (decide (97 ≤ c) && decide (c ≤ 122))
    || (decide (48 ≤ c) && decide (c ≤ 57))
    || strchr sg (lit "-_.!~*'()") c

/-- The loop and the epilogue of `guac_kubernetes_escape_url_component`
(lines 47-88): `current` is the offset of the write position in `output`. -/
def escape_loop (sg : Bool) : Buf → Nat → Int → List Nat → Option (Int × Buf)
  | output, current, length, [] =>
    if length < 1 then some (1, output)
    else (store output current [0]).map (fun o => (0, o))
  | output, current, length, c :: str =>
    if c = 0 then
      if length < 1 then some (1, output)
      else (store output current [0]).map (fun o => (0, o))
    else if guac_kubernetes_is_url_safe sg (toChar sg c) then
      if length < 1 then some (1, output)
      else (store output current [c]).bind
        (fun o => escape_loop sg o (current + 1) (length - 1) str)
    else
      if length < 4 then some (1, output)
      else (snprintf output current 4 (37 :: fmt02X (unsigned (toChar sg c)))).bind
        (fun r => escape_loop sg r.2 (current + 3) (length - 3) str)

/-- Model of `guac_kubernetes_escape_url_component` (lines 44-90). -/
def guac_kubernetes_escape_url_component (sg : Bool) (output : Buf) (length : Int)
    (str : List Nat) : Option (Int × Buf) :=
  escape_loop sg output 0 length str

/-- Outcome of the scan of the existing buffer content (lines 102-120). -/
inductive Scan where
  /-- The scan read outside the array. -/
  | fault : Scan
  /-- The scan left through `return 1` (line 116). -/
  | unterminated : Scan
  /-- The scan reached the terminator with these values of `str_len` and `qmark`. -/
  | done (str_len : Nat) (qmark : Bool) : Scan
  deriving DecidableEq, Repr

/-- The `while` loop of lines 107-120; the list is the memory from `str` on. -/
def scan_loop (length : Int) : List Nat → Nat → Bool → Scan
  | [], _, _ => Scan.fault
  | c :: rest, str_len, qmark =>
    if c = 0 then Scan.done str_len qmark
    else if ((str_len + 1 : Nat) : Int) ≥ length then Scan.unterminated
    else scan_loop length rest (str_len + 1) (if c = 63 then true else qmark)

/-- Model of `guac_kubernetes_append_endpoint_param` (lines 92-134).  The
array `escaped_param_value` has `M` bytes with initial contents `junk`;
`sizeof` of it is passed as the `int` `M`. -/
def guac_kubernetes_append_endpoint_param (sg : Bool) (M : Nat) (junk : Nat → Nat)
    (buffer : Buf) (length : Int) (param_name param_value : List Nat) :
    Option (Int × Buf) :=
  match guac_kubernetes_escape_url_component sg (uninit junk M) (M : Int) param_value with
  | none => none
  | some (r, escaped_param_value) =>
    if r ≠ 0 then some (1, buffer)
    else
      match scan_loop length buffer 0 false with
      | Scan.fault => none
      | Scan.unterminated => some (1, buffer)
      | Scan.done str_len qmark =>
        let delimiter : Nat := if qmark then 38 else 63
        match snprintf buffer str_len (size_t (length - (str_len : Int)))
            (delimiter :: cstr param_name ++ 61 :: cstr escaped_param_value) with
        | none => none
        | some (written, buffer1) =>
          some (if written < 0 ∨ written ≥ length then 1 else 0, buffer1)

/-- The optional call of the appender (lines 174-186): skipped for a `NULL` value. -/
def append_if_supplied (sg : Bool) (M : Nat) (junk : Nat → Nat) (endpoint_params : Buf)
    (param_name : List Nat) : Option (List Nat) → Option (Int × Buf)
  | none => some (0, endpoint_params)
  | some param_value =>
    guac_kubernetes_append_endpoint_param sg M junk endpoint_params (M : Int)
      param_name param_value

/-- The last statements of `guac_kubernetes_endpoint_uri` (lines 188-194): the
final `snprintf` and `return !(written < length - 1)`. -/
def endpoint_uri_combine (buffer : Buf) (length : Int) (endpoint_path endpoint_params : Buf) :
    Option (Int × Buf) :=
  match snprintf buffer 0 (size_t length)
      (cstr endpoint_path ++ 63 :: cstr endpoint_params
        ++ lit "stdin=true&stdout=true&tty=true") with
  | none => none
  | some (written, buffer1) => some (if written < length - 1 then 0 else 1, buffer1)

/-- Model of `guac_kubernetes_endpoint_uri` (lines 136-196).  `NULL` is `none`.
The arrays `escaped_namespace`, `escaped_pod`, `endpoint_path`,
`endpoint_params` and the `escaped_param_value` of the two appender calls start
with the contents `junk 0` ... `junk 5`.  The arrays `escaped_container` and
`escaped_exec_command` are declared at lines 144-145 and never used. -/
def guac_kubernetes_endpoint_uri (sg : Bool) (M : Nat) (junk : Nat → Nat → Nat)
    (buffer : Buf) (length : Int) (kubernetes_namespace kubernetes_pod : List Nat)
    (kubernetes_container exec_command : Option (List Nat)) : Option (Int × Buf) :=
  match guac_kubernetes_escape_url_component sg (uninit (junk 0) M) (M : Int)
      kubernetes_namespace with
  | none => none
  | some (r1, escaped_namespace) =>
  if r1 ≠ 0 then some (1, buffer) else
  match guac_kubernetes_escape_url_component sg (uninit (junk 1) M) (M : Int)
      kubernetes_pod with
  | none => none
  | some (r2, escaped_pod) =>
  if r2 ≠ 0 then some (1, buffer) else
  let call := if exec_command.isSome then lit "exec" else lit "attach"
  match snprintf (uninit (junk 2) M) 0 M
      (lit "/api/v1/namespaces/" ++ cstr escaped_namespace ++ lit "/pods/"
        ++ cstr escaped_pod ++ lit "/" ++ call) with
  | none => none
  | some (written, endpoint_path) =>
  if written < 0 ∨ written ≥ (M : Int) then some (1, buffer) else
  match store (uninit (junk 3) M) 0 [0] with
  | none => none
  | some endpoint_params0 =>
  match append_if_supplied sg M (junk 4) endpoint_params0 (lit "command") exec_command with
  | none => none
  | some (r3, endpoint_params1) =>
  if r3 ≠ 0 then some (1, buffer) else
  match append_if_supplied sg M (junk 5) endpoint_params1 (lit "container")
      kubernetes_container with
  | none => none
  | some (r4, endpoint_params2) =>
  if r4 ≠ 0 then some (1, buffer) else
  endpoint_uri_combine buffer length endpoint_path endpoint_params2

/-- The three bytes stored for a byte that is not safe: the output of
`"%%%02X"` cut to the three bytes that `snprintf(current, 4, ...)` keeps. -/
def escByte (sg : Bool) (c : Nat) : List Nat :=
  (37 :: fmt02X (unsigned (toChar sg c))).take 3

/-- The text the escaper produces for `str`, as a function of the input alone. -/
def escText (sg : Bool) : List Nat → List Nat
  | [] => []
  | c :: str =>
    if c = 0 then []
    else if guac_kubernetes_is_url_safe sg (toChar sg c) then c :: escText sg str
    else escByte sg c ++ escText sg str

/-! ## Notions the specification is stated with -/

/-- The unreserved set in the words of the specification: letters, digits and
the nine bytes of `-_.!~*'()`. -/
def isUnreserved (b : Nat) : Bool :=
  (decide (65 ≤ b) && decide (b ≤ 90)) || (decide (97 ≤ b) && decide (b ≤ 122))
    || (decide (48 ≤ b) && decide (b ≤ 57))
    || [45, 95, 46, 33, 126, 42, 39, 40, 41].contains b

/-- The number `N` of output bytes the specification counts for an input: one
for the terminator, one per unreserved byte and three per other byte. -/
def requiredCapacity (str : List Nat) : Nat :=
  1 + str.countP isUnreserved + 3 * str.countP (fun b => !isUnreserved b)

/-- Value of a hexadecimal digit, `none` for any other byte. -/
def hexValue (b : Nat) : Option Nat :=
  if 48 ≤ b ∧ b ≤ 57 then some (b - 48)
  else if 65 ≤ b ∧ b ≤ 70 then some (b - 55)
  else if 97 ≤ b ∧ b ≤ 102 then some (b - 87)
  else none

/-- Percent decoding of at most `fuel` output bytes. -/
def percentDecodeFuel : Nat → List Nat → List Nat
  | 0, _ => []
  | _ + 1, [] => []
  | n + 1, [b] => b :: percentDecodeFuel n []
  | n + 1, [b, h] => b :: percentDecodeFuel n [h]
  | n + 1, b :: h :: l :: rest =>
    match b == 37, hexValue h, hexValue l with
    | true, some x, some y => (16 * x + y) :: percentDecodeFuel n rest
    | _, _, _ => b :: percentDecodeFuel n (h :: l :: rest)

/-- Percent decoding in the words of the specification: each `%XX` is read as
the byte with hexadecimal value `XX`, every other byte as itself. -/
def percentDecode (s : List Nat) : List Nat := percentDecodeFuel s.length s

/-! ## Results of the three functions as functions of their inputs -/

/-- A byte of an escape triplet: `%`, a digit or one of `A`-`F`. -/
def isTripletByte (b : Nat) : Bool :=
  b == 37 || (decide (48 ≤ b) && decide (b ≤ 57)) || (decide (65 ≤ b) && decide (b ≤ 70))

/-- The array `b` starts with the NUL-free bytes `s` followed by a NUL. -/
def Holds (b : Buf) (s : List Nat) : Prop :=
  (∀ x ∈ s, x ≠ 0) ∧ ∃ rest, b = s ++ 0 :: rest

/-- The complete text that `"%c%s=%s"` formats to when the buffer holds `s`. -/
def paramText (sg : Bool) (s name value : List Nat) : List Nat :=
  (if s.contains 63 then 38 else 63) :: cstr name ++ 61 :: escText sg value

/-- The verb `call` (lines 158-160). -/
def verbText (exec_command : Option (List Nat)) : List Nat :=
  if exec_command.isSome then lit "exec" else lit "attach"

/-- The complete text of the format of line 165. -/
def pathText (sg : Bool) (ns pod : List Nat) (exec_command : Option (List Nat)) : List Nat :=
  lit "/api/v1/namespaces/" ++ escText sg ns ++ lit "/pods/" ++ escText sg pod ++ lit "/"
    ++ verbText exec_command

/-- The string held by `endpoint_params` after one optional appender call that
returned 0: the formatted text is cut to the room left in the `M` bytes. -/
def paramsAfter (sg : Bool) (M : Nat) (s name : List Nat) : Option (List Nat) → List Nat
  | none => s
  | some v => s ++ (paramText sg s name v).take (M - s.length - 1)

/-- The condition under which one optional appender call returns 0. -/
def paramFits (sg : Bool) (M : Nat) (s name : List Nat) : Option (List Nat) → Bool
  | none => true
  | some v => decide ((escText sg v).length + 1 ≤ M)
      && decide ((paramText sg s name v).length < M)

/-- The string held by `endpoint_params` at line 188. -/
def paramsText (sg : Bool) (M : Nat) (container exec_command : Option (List Nat)) : List Nat :=
  paramsAfter sg M (paramsAfter sg M [] (lit "command") exec_command) (lit "container")
    container

/-- The complete text of the format of line 189. -/
def uriText (sg : Bool) (M : Nat) (ns pod : List Nat)
    (container exec_command : Option (List Nat)) : List Nat :=
  pathText sg ns pod exec_command ++ 63 :: paramsText sg M container exec_command
    ++ lit "stdin=true&stdout=true&tty=true"

/-- The condition under which the builder reaches its last `snprintf`. -/
def uriFits (sg : Bool) (M : Nat) (ns pod : List Nat)
    (container exec_command : Option (List Nat)) : Bool :=
  decide ((escText sg ns).length + 1 ≤ M) && decide ((escText sg pod).length + 1 ≤ M)
    && decide ((pathText sg ns pod exec_command).length < M)
    && paramFits sg M [] (lit "command") exec_command
    && paramFits sg M (paramsAfter sg M [] (lit "command") exec_command) (lit "container")
        container

/-- The complete text one optional appender call formats: nothing for `NULL`. -/
def optParamText (sg : Bool) (s name : List Nat) : Option (List Nat) → List Nat
  | none => []
  | some v => paramText sg s name v

/-- The parameter text when nothing is cut: `?command=` esc(command) if a
command was supplied, then the delimiter, `container=` and esc(container) if a
container was supplied. -/
def paramsFull (sg : Bool) (container exec_command : Option (List Nat)) : List Nat :=
  optParamText sg [] (lit "command") exec_command
    ++ optParamText sg (optParamText sg [] (lit "command") exec_command) (lit "container")
        container

/-- The five bytes that would alter the structure of the URI. -/
def isStructural (b : Nat) : Bool := b == 47 || b == 63 || b == 38 || b == 61 || b == 32

/-- An uppercase hexadecimal digit: `0`-`9` or `A`-`F`. -/
def isUpperHex (b : Nat) : Bool :=
  (decide (48 ≤ b) && decide (b ≤ 57)) || (decide (65 ≤ b) && decide (b ≤ 70))

/-- Well-formedness of escaped text, read left to right; the first argument
is the number of hexadecimal digits still owed to the last `%`.  Outside a
triplet every byte is unreserved; a `%` opens a triplet and must be followed
by two uppercase hexadecimal digits. -/
def escapedFormAux : Nat → List Nat → Bool
  | 0, [] => true
  | _ + 1, [] => false
  | 0, b :: rest =>
    if b = 37 then escapedFormAux 2 rest else isUnreserved b && escapedFormAux 0 rest
  | k + 1, b :: rest => isUpperHex b && escapedFormAux k rest

/-- The text consists of unreserved bytes and well-formed `%XX` triplets. -/
def isEscapedForm (s : List Nat) : Bool := escapedFormAux 0 s

/-! ## Lemmas on stores -/

theorem store_eq (b : Buf) (i : Nat) (vs : List Nat) (h : i + vs.length ≤ b.length) :
    store b i vs = some (b.take i ++ vs ++ b.drop (i + vs.length)) := by
  simp [store, h]

theorem stored_length (b : Buf) (i : Nat) (vs : List Nat) (h : i + vs.length ≤ b.length) :
    (b.take i ++ vs ++ b.drop (i + vs.length)).length = b.length := by
  simp only [List.length_append, List.length_take, List.length_drop]
  omega

theorem stored_take (b : Buf) (i j : Nat) (vs : List Nat) (h : i + vs.length ≤ b.length)
    (hj : j ≤ vs.length) :
    (b.take i ++ vs ++ b.drop (i + vs.length)).take (i + j) = b.take i ++ vs.take j := by
  have hi : (b.take i).length = i := by simp; omega
  rw [List.append_assoc, List.take_append_eq_append_take, hi]
  have h1 : (b.take i).take (i + j) = b.take i := by
    apply List.take_of_length_le; omega
  rw [h1, Nat.add_sub_cancel_left, List.take_append_eq_append_take]
  have h2 : j - vs.length = 0 := by omega
  simp [h2]

theorem stored_drop (b : Buf) (i n : Nat) (vs : List Nat) (h : i + vs.length ≤ b.length)
    (hn : i + vs.length ≤ n) :
    (b.take i ++ vs ++ b.drop (i + vs.length)).drop n = b.drop n := by
  have hi : (b.take i ++ vs).length = i + vs.length := by simp; omega
  rw [List.drop_append_eq_append_drop, hi]
  have h1 : (b.take i ++ vs).drop n = [] := by
    apply List.drop_of_length_le; omega
  rw [h1, List.nil_append, List.drop_drop]
  congr 1
  omega

/-! ## Lemmas on the escaper -/

theorem hexAux_length (fuel u : Nat) (acc : List Nat) :
    acc.length ≤ (hexAux fuel u acc).length := by
  induction fuel generalizing u acc with
  | zero => simp [hexAux]
  | succ n ih =>
    unfold hexAux
    split
    · simp
    · exact Nat.le_trans (by simp) (ih _ _)

theorem hexAux_le (fuel u : Nat) (acc : List Nat) :
    (hexAux fuel u acc).length ≤ acc.length + fuel := by
  induction fuel generalizing u acc with
  | zero => simp [hexAux]
  | succ n ih =>
    unfold hexAux
    split
    · simp
    · have := ih (u / 16) (hexDigit (u % 16) :: acc)
      simp only [List.length_cons] at this
      omega

theorem fmt02X_length (u : Nat) : 2 ≤ (fmt02X u).length := by
  unfold fmt02X
  simp only [List.length_append, List.length_replicate]
  omega

theorem escByte_length (sg : Bool) (c : Nat) : (escByte sg c).length = 3 := by
  unfold escByte
  have := fmt02X_length (unsigned (toChar sg c))
  simp only [List.length_take, List.length_cons]
  omega

theorem hexDigit_triplet (d : Nat) (h : d < 16) : isTripletByte (hexDigit d) = true := by
  unfold hexDigit isTripletByte
  split <;> simp <;> omega

theorem hexAux_triplet (fuel u : Nat) (acc : List Nat)
    (hacc : ∀ b ∈ acc, isTripletByte b = true) :
    ∀ b ∈ hexAux fuel u acc, isTripletByte b = true := by
  induction fuel generalizing u acc with
  | zero => simpa [hexAux] using hacc
  | succ n ih =>
    have hd : isTripletByte (hexDigit (u % 16)) = true :=
      hexDigit_triplet _ (Nat.mod_lt _ (by decide))
    have hacc1 : ∀ b ∈ hexDigit (u % 16) :: acc, isTripletByte b = true := by
      intro b hb
      rcases List.mem_cons.1 hb with rfl | hb
      · exact hd
      · exact hacc b hb
    unfold hexAux
    split
    · exact hacc1
    · exact ih _ _ hacc1

theorem escByte_triplet (sg : Bool) (c : Nat) : ∀ b ∈ escByte sg c, isTripletByte b = true := by
  intro b hb
  unfold escByte at hb
  have hb1 := List.mem_of_mem_take hb
  rcases List.mem_cons.1 hb1 with rfl | hb2
  · rfl
  · unfold fmt02X at hb2
    rcases List.mem_append.1 hb2 with h | h
    · rw [(List.mem_replicate.1 h).2]; rfl
    · exact hexAux_triplet _ _ _ (by simp) b h

theorem snprintf_escByte (sg : Bool) (output : Buf) (current c : Nat)
    (h : current + 4 ≤ output.length) :
    snprintf output current 4 (37 :: fmt02X (unsigned (toChar sg c)))
      = some (((37 :: fmt02X (unsigned (toChar sg c))).length : Int),
          output.take current ++ (escByte sg c ++ [0]) ++ output.drop (current + 4)) := by
  have hl := fmt02X_length (unsigned (toChar sg c))
  have h3 : ((37 :: fmt02X (unsigned (toChar sg c))).take 3 ++ [0]).length = 4 := by
    simp only [List.length_append, List.length_take, List.length_cons, List.length_nil]
    omega
  have hfuel : ((37 :: fmt02X (unsigned (toChar sg c))).length : Int) ≤ INT_MAX := by
    have h9 : (fmt02X (unsigned (toChar sg c))).length ≤ 10 := by
      unfold fmt02X
      have : (hexAux 8 (unsigned (toChar sg c)) []).length ≤ 8 := hexAux_le _ _ _
      simp only [List.length_append, List.length_replicate]
      omega
    simp only [List.length_cons, INT_MAX]
    omega
  unfold snprintf
  simp only [hfuel, if_true, show (4 : Nat) ≠ 0 by decide, if_false, show 4 - 1 = 3 by rfl]
  rw [store_eq _ _ _ (by rw [h3]; exact h), h3]
  rfl

theorem escText_nul (sg : Bool) (str : List Nat) : escText sg (0 :: str) = [] := by
  simp [escText]

theorem escText_safe (sg : Bool) (c : Nat) (str : List Nat) (hc : c ≠ 0)
    (hs : guac_kubernetes_is_url_safe sg (toChar sg c) = true) :
    escText sg (c :: str) = c :: escText sg str := by
  simp [escText, hc, hs]

theorem escText_triplet (sg : Bool) (c : Nat) (str : List Nat) (hc : c ≠ 0)
    (hs : guac_kubernetes_is_url_safe sg (toChar sg c) = false) :
    escText sg (c :: str) = escByte sg c ++ escText sg str := by
  simp [escText, hc, hs]

theorem escape_loop_end (sg : Bool) (output : Buf) (current : Nat) (length : Int)
    (str : List Nat) (h : str = [] ∨ ∃ t, str = 0 :: t) :
    escape_loop sg output current length str
      = if length < 1 then some (1, output)
        else (store output current [0]).map (fun o => (0, o)) := by
  rcases h with rfl | ⟨t, rfl⟩ <;> simp [escape_loop]

theorem escape_loop_safe (sg : Bool) (output : Buf) (current : Nat) (length : Int)
    (c : Nat) (str : List Nat) (hc : c ≠ 0)
    (hs : guac_kubernetes_is_url_safe sg (toChar sg c) = true) :
    escape_loop sg output current length (c :: str)
      = if length < 1 then some (1, output)
        else (store output current [c]).bind
          (fun o => escape_loop sg o (current + 1) (length - 1) str) := by
  simp [escape_loop, hc, hs]

theorem escape_loop_triplet (sg : Bool) (output : Buf) (current : Nat) (length : Int)
    (c : Nat) (str : List Nat) (hc : c ≠ 0)
    (hs : guac_kubernetes_is_url_safe sg (toChar sg c) = false) :
    escape_loop sg output current length (c :: str)
      = if length < 4 then some (1, output)
        else (snprintf output current 4 (37 :: fmt02X (unsigned (toChar sg c)))).bind
          (fun r => escape_loop sg r.2 (current + 3) (length - 3) str) := by
  simp [escape_loop, hc, hs]

/-- When the remaining capacity covers the escaped text and its terminator,
the loop returns 0 and stores exactly that text, NUL terminated, at `current`. -/
theorem escape_loop_ok (sg : Bool) (str : List Nat) :
    ∀ (output : Buf) (current : Nat) (length : Int),
      ((escText sg str).length : Int) + 1 ≤ length →
      current + (escText sg str).length + 1 ≤ output.length →
      escape_loop sg output current length str
        = some (0, output.take current ++ escText sg str
            ++ 0 :: output.drop (current + (escText sg str).length + 1)) := by
  induction str with
  | nil =>
    intro output current length hfit hbuf
    simp only [escText, List.length_nil, Nat.add_zero] at hfit hbuf ⊢
    have h1 : ¬ length < 1 := by simp at hfit; omega
    rw [escape_loop_end _ _ _ _ _ (Or.inl rfl), if_neg h1,
      store_eq _ _ _ (by simpa using hbuf)]
    simp
  | cons c str ih =>
    intro output current length hfit hbuf
    by_cases hc : c = 0
    · subst hc
      rw [escText_nul] at hfit hbuf ⊢
      simp only [List.length_nil, Nat.add_zero] at hfit hbuf ⊢
      have h1 : ¬ length < 1 := by simp at hfit; omega
      rw [escape_loop_end _ _ _ _ _ (Or.inr ⟨str, rfl⟩), if_neg h1,
        store_eq _ _ _ (by simpa using hbuf)]
      simp
    · cases hs : guac_kubernetes_is_url_safe sg (toChar sg c)
      · rw [escText_triplet sg c str hc hs] at hfit hbuf ⊢
        simp only [List.length_append, escByte_length] at hfit hbuf ⊢
        have h1 : ¬ length < 4 := by push_cast at hfit; omega
        have hl : (escByte sg c ++ [0]).length = 4 := by simp [escByte_length]
        have hst : current + (escByte sg c ++ [0]).length ≤ output.length := by
          rw [hl]; omega
        rw [escape_loop_triplet sg _ _ _ c str hc hs, if_neg h1,
          snprintf_escByte sg output current c (by omega), Option.some_bind]
        have e4 : current + 4 = current + (escByte sg c ++ [0]).length := by rw [hl]
        simp only []
        rw [e4]
        rw [ih _ (current + 3) (length - 3) (by push_cast at hfit; omega)
          (by rw [stored_length _ _ _ hst]; omega)]
        rw [stored_take output current 3 (escByte sg c ++ [0]) hst (by rw [hl]; omega),
          stored_drop output current _ (escByte sg c ++ [0]) hst (by rw [hl]; omega)]
        have e3 : (escByte sg c ++ [0]).take 3 = escByte sg c := by
          rw [List.take_append_eq_append_take, escByte_length]
          simp [List.take_of_length_le, escByte_length]
        have e5 : current + 3 + (escText sg str).length + 1
            = current + (3 + (escText sg str).length) + 1 := by omega
        rw [e3, e5]
        simp
      · rw [escText_safe sg c str hc hs] at hfit hbuf ⊢
        simp only [List.length_cons] at hfit hbuf ⊢
        have h1 : ¬ length < 1 := by push_cast at hfit; omega
        have hst : current + [c].length ≤ output.length := by simp; omega
        rw [escape_loop_safe sg _ _ _ c str hc hs, if_neg h1, store_eq _ _ _ hst,
          Option.some_bind]
        rw [ih _ (current + 1) (length - 1) (by push_cast at hfit; omega)
          (by rw [stored_length _ _ _ hst]; omega)]
        rw [stored_take output current 1 [c] hst (by simp),
          stored_drop output current _ [c] hst (by simp; omega)]
        have e5 : current + 1 + (escText sg str).length + 1
            = current + ((escText sg str).length + 1) + 1 := by omega
        rw [e5]
        simp

/-- When the remaining capacity does not cover the escaped text and its
terminator, the loop returns 1, and every store it made was inside the array. -/
theorem escape_loop_fail (sg : Bool) (str : List Nat) :
    ∀ (output : Buf) (current : Nat) (length : Int),
      length < ((escText sg str).length : Int) + 1 →
      current + length.toNat ≤ output.length →
      ∃ o, escape_loop sg output current length str = some (1, o)
        ∧ o.length = output.length := by
  induction str with
  | nil =>
    intro output current length hlt _
    simp only [escText, List.length_nil] at hlt
    have h1 : length < 1 := by simpa using hlt
    exact ⟨output, by rw [escape_loop_end _ _ _ _ _ (Or.inl rfl), if_pos h1], rfl⟩
  | cons c str ih =>
    intro output current length hlt hbuf
    by_cases hc : c = 0
    · subst hc
      rw [escText_nul] at hlt
      have h1 : length < 1 := by simpa using hlt
      exact ⟨output, by rw [escape_loop_end _ _ _ _ _ (Or.inr ⟨str, rfl⟩), if_pos h1], rfl⟩
    · cases hs : guac_kubernetes_is_url_safe sg (toChar sg c)
      · rw [escText_triplet sg c str hc hs] at hlt
        simp only [List.length_append, escByte_length] at hlt
        rw [escape_loop_triplet sg _ _ _ c str hc hs]
        by_cases h1 : length < 4
        · exact ⟨output, by rw [if_pos h1], rfl⟩
        · have hl : (escByte sg c ++ [0]).length = 4 := by simp [escByte_length]
          have hst : current + (escByte sg c ++ [0]).length ≤ output.length := by
            rw [hl]; omega
          have e4 : current + 4 = current + (escByte sg c ++ [0]).length := by rw [hl]
          obtain ⟨o, ho, hlen⟩ := ih (output.take current ++ (escByte sg c ++ [0])
              ++ output.drop (current + (escByte sg c ++ [0]).length)) (current + 3) (length - 3)
            (by push_cast at hlt; omega) (by rw [stored_length _ _ _ hst]; omega)
          refine ⟨o, ?_, by rw [hlen, stored_length _ _ _ hst]⟩
          rw [if_neg h1, snprintf_escByte sg output current c (by omega), Option.some_bind]
          simp only []
          rw [e4]
          exact ho
      · rw [escText_safe sg c str hc hs] at hlt
        simp only [List.length_cons] at hlt
        rw [escape_loop_safe sg _ _ _ c str hc hs]
        by_cases h1 : length < 1
        · exact ⟨output, by rw [if_pos h1], rfl⟩
        · have hst : current + [c].length ≤ output.length := by simp; omega
          obtain ⟨o, ho, hlen⟩ := ih (output.take current ++ [c]
              ++ output.drop (current + [c].length)) (current + 1) (length - 1)
            (by push_cast at hlt; omega) (by rw [stored_length _ _ _ hst]; omega)
          refine ⟨o, ?_, by rw [hlen, stored_length _ _ _ hst]⟩
          rw [if_neg h1, store_eq _ _ _ hst, Option.some_bind]
          exact ho

/-! ## Buffers that hold a C string -/

theorem cstr_append_nul (s rest : List Nat) (hs : ∀ x ∈ s, x ≠ 0) :
    cstr (s ++ 0 :: rest) = s := by
  induction s with
  | nil => simp [cstr]
  | cons a t ih =>
    have ha : a ≠ 0 := hs a (List.mem_cons_self _ _)
    have ht : ∀ x ∈ t, x ≠ 0 := fun x hx => hs x (List.mem_cons_of_mem _ hx)
    have := ih ht
    simp only [cstr] at this ⊢
    simp [List.takeWhile_cons, ha, this]

theorem cstr_ne_zero (s : List Nat) : ∀ x ∈ cstr s, x ≠ 0 := by
  intro x hx
  have := List.mem_takeWhile_imp hx
  simpa using this

theorem cstr_of_ne_zero (s : List Nat) (hs : ∀ x ∈ s, x ≠ 0) : cstr s = s := by
  unfold cstr
  rw [List.takeWhile_eq_self_iff]
  intro x hx
  simpa using hs x hx

theorem Holds.cstr_eq {b : Buf} {s : List Nat} (h : Holds b s) : cstr b = s := by
  obtain ⟨hs, rest, rfl⟩ := h
  exact cstr_append_nul s rest hs

theorem Holds.length_lt {b : Buf} {s : List Nat} (h : Holds b s) : s.length < b.length := by
  obtain ⟨_, rest, rfl⟩ := h
  simp

theorem Holds.take_eq {b : Buf} {s : List Nat} (h : Holds b s) : b.take s.length = s := by
  obtain ⟨_, rest, rfl⟩ := h
  simp

theorem uninit_length (junk : Nat → Nat) (n : Nat) : (uninit junk n).length = n := by
  simp [uninit]

theorem isTripletByte_ne_zero (b : Nat) (h : isTripletByte b = true) : b ≠ 0 := by
  rintro rfl
  simp [isTripletByte] at h

/-- Every byte of the escaped text is a safe byte copied from the input or a
byte of a triplet. -/
theorem escText_mem (sg : Bool) (str : List Nat) :
    ∀ b ∈ escText sg str,
      (b ≠ 0 ∧ b ∈ str ∧ guac_kubernetes_is_url_safe sg (toChar sg b) = true)
        ∨ isTripletByte b = true := by
  induction str with
  | nil => simp [escText]
  | cons c str ih =>
    intro b hb
    by_cases hc : c = 0
    · subst hc
      rw [escText_nul] at hb
      exact absurd hb (List.not_mem_nil _)
    · cases hs : guac_kubernetes_is_url_safe sg (toChar sg c)
      · rw [escText_triplet sg c str hc hs] at hb
        rcases List.mem_append.1 hb with h | h
        · exact Or.inr (escByte_triplet sg c b h)
        · rcases ih b h with ⟨h1, h2, h3⟩ | h1
          · exact Or.inl ⟨h1, List.mem_cons_of_mem _ h2, h3⟩
          · exact Or.inr h1
      · rw [escText_safe sg c str hc hs] at hb
        rcases List.mem_cons.1 hb with rfl | h
        · exact Or.inl ⟨hc, List.mem_cons_self _ _, hs⟩
        · rcases ih b h with ⟨h1, h2, h3⟩ | h1
          · exact Or.inl ⟨h1, List.mem_cons_of_mem _ h2, h3⟩
          · exact Or.inr h1

theorem escText_ne_zero (sg : Bool) (str : List Nat) : ∀ b ∈ escText sg str, b ≠ 0 := by
  intro b hb
  rcases escText_mem sg str b hb with ⟨h, _, _⟩ | h
  · exact h
  · exact isTripletByte_ne_zero b h

/-- Success of the escaper on an array of at least `length` bytes. -/
theorem escape_ok (sg : Bool) (output : Buf) (cap : Nat) (str : List Nat)
    (hfit : (escText sg str).length + 1 ≤ cap) (hbuf : cap ≤ output.length) :
    ∃ o, guac_kubernetes_escape_url_component sg output (cap : Int) str = some (0, o)
      ∧ Holds o (escText sg str) ∧ o.length = output.length := by
  have h := escape_loop_ok sg str output 0 (cap : Int) (by exact_mod_cast hfit) (by omega)
  refine ⟨_, h, ⟨escText_ne_zero sg str, _, by rw [List.take_zero, List.nil_append]⟩, ?_⟩
  simp only [List.take_zero, List.nil_append, List.length_append, List.length_cons,
    List.length_drop]
  omega

/-- Failure of the escaper on an array of at least `length` bytes. -/
theorem escape_fail (sg : Bool) (output : Buf) (length : Int) (str : List Nat)
    (hlt : length < ((escText sg str).length : Int) + 1)
    (hbuf : length.toNat ≤ output.length) :
    ∃ o, guac_kubernetes_escape_url_component sg output length str = some (1, o)
      ∧ o.length = output.length :=
  escape_loop_fail sg str output 0 length hlt (by omega)

/-! ## Lemmas on `snprintf` and on the scan -/

theorem size_t_natCast (n : Nat) (h : (n : Int) ≤ INT_MAX) : size_t (n : Int) = n := by
  unfold size_t
  unfold INT_MAX at h
  rw [Int.emod_eq_of_lt (by omega) (by omega)]
  simp

/-- The bytes `snprintf` stores never exceed its size argument. -/
theorem snprintf_some (b : Buf) (off size : Nat) (text : List Nat) (hsize : 1 ≤ size)
    (hfit : off + (text.take (size - 1)).length + 1 ≤ b.length) :
    snprintf b off size text
      = some (if (text.length : Int) ≤ INT_MAX then (text.length : Int) else -1,
          b.take off ++ (text.take (size - 1) ++ [0])
            ++ b.drop (off + (text.take (size - 1) ++ [0]).length)) := by
  unfold snprintf
  have h0 : size ≠ 0 := by omega
  simp only [h0, if_false]
  rw [store_eq _ _ _ (by simp only [List.length_append, List.length_cons, List.length_nil]; omega)]
  rfl

theorem snprintf_inv (b : Buf) (off size : Nat) (text : List Nat) (hsize : 1 ≤ size)
    (w : Int) (b1 : Buf) (h : snprintf b off size text = some (w, b1)) :
    off + (text.take (size - 1)).length + 1 ≤ b.length := by
  by_contra hc
  unfold snprintf at h
  have h0 : size ≠ 0 := by omega
  simp only [h0, if_false] at h
  have : store b off (text.take (size - 1) ++ [0]) = none := by
    unfold store
    rw [if_neg]
    simp only [List.length_append, List.length_cons, List.length_nil]
    omega
  rw [this] at h
  simp at h

theorem snprintf_fst (b : Buf) (off size : Nat) (text : List Nat) (w : Int) (b1 : Buf)
    (h : snprintf b off size text = some (w, b1)) :
    w = if (text.length : Int) ≤ INT_MAX then (text.length : Int) else -1 := by
  unfold snprintf at h
  by_cases h0 : size = 0
  · simp only [h0, if_true, Option.some.injEq, Prod.mk.injEq] at h
    exact h.1.symm
  · simp only [h0, if_false] at h
    cases hst : store b off (List.take (size - 1) text ++ [0]) with
    | none => rw [hst] at h; simp at h
    | some b2 =>
      rw [hst] at h
      simp only [Option.map_some', Option.some.injEq, Prod.mk.injEq] at h
      exact h.1.symm

/-- Appending formatted text after the string held by a buffer. -/
theorem snprintf_holds (b s text : List Nat) (size : Nat) (hpre : b.take s.length = s)
    (hs : ∀ x ∈ s, x ≠ 0) (ht : ∀ x ∈ text, x ≠ 0) (hsize : 1 ≤ size)
    (hfit : s.length + (text.take (size - 1)).length + 1 ≤ b.length) :
    ∃ b1, snprintf b s.length size text
        = some (if (text.length : Int) ≤ INT_MAX then (text.length : Int) else -1, b1)
      ∧ Holds b1 (s ++ text.take (size - 1)) ∧ b1.length = b.length := by
  refine ⟨_, snprintf_some b s.length size text hsize hfit,
    ⟨?_, b.drop (s.length + (text.take (size - 1) ++ [0]).length), ?_⟩, ?_⟩
  · intro x hx
    rcases List.mem_append.1 hx with h | h
    · exact hs x h
    · exact ht x (List.mem_of_mem_take h)
  · rw [hpre]
    simp only [List.append_assoc, List.singleton_append]
  · apply stored_length
    simp only [List.length_append, List.length_cons, List.length_nil]
    omega

theorem scan_loop_cons (length : Int) (c : Nat) (rest : List Nat) (k : Nat) (q : Bool)
    (hc : c ≠ 0) (h1 : ¬ (((k + 1 : Nat) : Int) ≥ length)) :
    scan_loop length (c :: rest) k q
      = scan_loop length rest (k + 1) (if c = 63 then true else q) := by
  simp only [scan_loop, hc, if_false, h1]

theorem scan_loop_holds (length : Int) (rest : List Nat) (s : List Nat) :
    ∀ (k : Nat) (q : Bool), (∀ x ∈ s, x ≠ 0) →
      (((k + s.length : Nat) : Int) < length ∨ s = []) →
      scan_loop length (s ++ 0 :: rest) k q = Scan.done (k + s.length) (q || s.contains 63) := by
  induction s with
  | nil =>
    intro k q _ _
    simp [scan_loop]
  | cons c t ih =>
    intro k q hs hlen
    have hc : c ≠ 0 := hs c (List.mem_cons_self _ _)
    have ht : ∀ x ∈ t, x ≠ 0 := fun x hx => hs x (List.mem_cons_of_mem _ hx)
    have hl : ((k + (c :: t).length : Nat) : Int) < length := by
      rcases hlen with h | h
      · exact h
      · exact absurd h (List.cons_ne_nil _ _)
    simp only [List.length_cons] at hl
    have h1 : ¬ (((k + 1 : Nat) : Int) ≥ length) := by push_cast at hl ⊢; omega
    rw [List.cons_append, scan_loop_cons length c _ k q hc h1,
      ih (k + 1) _ ht (Or.inl (by push_cast at hl ⊢; omega))]
    have e1 : k + 1 + t.length = k + (t.length + 1) := by omega
    rw [e1]
    by_cases h63 : c = 63
    · subst h63; simp
    · have h63b : ¬ (63 = c) := fun h => h63 h.symm
      simp [h63, h63b]

/-! ## The appender on a buffer that holds a string -/

theorem paramText_length (sg : Bool) (s name value : List Nat) :
    (paramText sg s name value).length
      = 1 + (cstr name).length + 1 + (escText sg value).length := by
  simp [paramText]
  omega

theorem paramText_ne_zero (sg : Bool) (s name value : List Nat) :
    ∀ x ∈ paramText sg s name value, x ≠ 0 := by
  intro x hx
  unfold paramText at hx
  rcases List.mem_cons.1 hx with rfl | hx
  · split <;> decide
  · rcases List.mem_append.1 hx with h | h
    · exact cstr_ne_zero name x h
    · rcases List.mem_cons.1 h with rfl | h
      · decide
      · exact escText_ne_zero sg value x h

/-- The appender fails, leaving the buffer alone, when the escaped value does
not fit `escaped_param_value`. -/
theorem append_escape_fail (sg : Bool) (M : Nat) (junk : Nat → Nat) (buffer : Buf)
    (length : Int) (name value : List Nat) (hv : M < (escText sg value).length + 1) :
    guac_kubernetes_append_endpoint_param sg M junk buffer length name value
      = some (1, buffer) := by
  obtain ⟨o, ho, _⟩ := escape_fail sg (uninit junk M) (M : Int) value
    (by exact_mod_cast hv) (by simp [uninit_length])
  unfold guac_kubernetes_append_endpoint_param
  rw [ho]
  simp

/-- The appender on a buffer of at least `cap` bytes that holds `s`: the
formatted text is cut to the `cap - len(s) - 1` bytes that remain, and the
result is 0 exactly when the whole text is shorter than `cap`. -/
theorem append_holds (sg : Bool) (M : Nat) (junk : Nat → Nat) (buffer : Buf) (cap : Nat)
    (name value s : List Nat) (hb : Holds buffer s) (hlen : s.length < cap)
    (hcap : cap ≤ buffer.length) (hint : (cap : Int) ≤ INT_MAX)
    (hv : (escText sg value).length + 1 ≤ M) :
    ∃ b1, guac_kubernetes_append_endpoint_param sg M junk buffer (cap : Int) name value
        = some (if (paramText sg s name value).length < cap then 0 else 1, b1)
      ∧ Holds b1 (s ++ (paramText sg s name value).take (cap - s.length - 1))
      ∧ b1.length = buffer.length := by
  obtain ⟨o, ho, hHo, _⟩ := escape_ok sg (uninit junk M) M value hv
    (by simp [uninit_length])
  have hscan : scan_loop (cap : Int) buffer 0 false = Scan.done s.length (s.contains 63) := by
    obtain ⟨hs, rest, rfl⟩ := hb
    have := scan_loop_holds (cap : Int) rest s 0 false hs
      (Or.inl (by simp only [Nat.zero_add]; exact_mod_cast hlen))
    simpa using this
  have hsz : size_t ((cap : Int) - (s.length : Int)) = cap - s.length := by
    have e : ((cap : Int) - (s.length : Int)) = ((cap - s.length : Nat) : Int) := by omega
    rw [e]
    apply size_t_natCast
    unfold INT_MAX at hint ⊢
    omega
  have hfit : s.length + ((paramText sg s name value).take (cap - s.length - 1)).length + 1
      ≤ buffer.length := by
    simp only [List.length_take]
    omega
  obtain ⟨b1, hb1, hH1, hl1⟩ := snprintf_holds buffer s (paramText sg s name value)
    (cap - s.length) hb.take_eq hb.1 (paramText_ne_zero sg s name value) (by omega) hfit
  refine ⟨b1, ?_, hH1, hl1⟩
  unfold guac_kubernetes_append_endpoint_param
  rw [ho]
  simp only [ne_eq, not_true_eq_false, if_false, hscan, hHo.cstr_eq, hsz]
  rw [show ((if s.contains 63 = true then 38 else 63) :: cstr name ++ 61 :: escText sg value)
    = paramText sg s name value from rfl, hb1]
  simp only [Option.some.injEq, Prod.mk.injEq, and_true]
  generalize (paramText sg s name value).length = L
  unfold INT_MAX at hint ⊢
  have hw : ((if (L : Int) ≤ 2147483647 then (L : Int) else -1) < 0
      ∨ (if (L : Int) ≤ 2147483647 then (L : Int) else -1) ≥ (cap : Int)) ↔ ¬ L < cap := by
    split <;> omega
  by_cases hlt : L < cap
  · rw [if_neg (fun h => hw.1 h hlt), if_pos hlt]
  · rw [if_pos (hw.2 hlt), if_neg hlt]

/-! ## The endpoint builder as a function of its inputs -/

theorem paramsAfter_ne_zero (sg : Bool) (M : Nat) (s name : List Nat) (v : Option (List Nat))
    (hs : ∀ x ∈ s, x ≠ 0) : ∀ x ∈ paramsAfter sg M s name v, x ≠ 0 := by
  cases v with
  | none => exact hs
  | some v =>
    intro x hx
    rcases List.mem_append.1 hx with h | h
    · exact hs x h
    · exact paramText_ne_zero sg s name v x (List.mem_of_mem_take h)

theorem paramsAfter_length (sg : Bool) (M : Nat) (s name : List Nat) (v : Option (List Nat))
    (hs : s.length < M) : (paramsAfter sg M s name v).length < M := by
  cases v with
  | none => exact hs
  | some v =>
    simp only [paramsAfter, List.length_append, List.length_take]
    omega

/-- One optional appender call of the builder, on the array `endpoint_params`. -/
theorem append_if_supplied_spec (sg : Bool) (M : Nat) (junk : Nat → Nat) (b : Buf)
    (s name : List Nat) (v : Option (List Nat)) (hb : Holds b s) (hbl : b.length = M)
    (hM : (M : Int) ≤ INT_MAX) :
    if paramFits sg M s name v = true then
      ∃ b1, append_if_supplied sg M junk b name v = some (0, b1)
        ∧ Holds b1 (paramsAfter sg M s name v) ∧ b1.length = M
    else ∃ b1, append_if_supplied sg M junk b name v = some (1, b1) := by
  have hsl : s.length < M := hbl ▸ hb.length_lt
  cases v with
  | none =>
    rw [if_pos (show paramFits sg M s name none = true from rfl)]
    exact ⟨b, rfl, hb, hbl⟩
  | some v =>
    by_cases hv : (escText sg v).length + 1 ≤ M
    · obtain ⟨b1, h1, h2, h3⟩ := append_holds sg M junk b M name v s hb hsl
        (by omega) hM hv
      by_cases hp : (paramText sg s name v).length < M
      · rw [if_pos (by simp [paramFits, hv, hp])]
        rw [if_pos hp] at h1
        exact ⟨b1, h1, h2, by omega⟩
      · rw [if_neg (by simp [paramFits, hp])]
        rw [if_neg hp] at h1
        exact ⟨b1, h1⟩
    · rw [if_neg (by simp [paramFits, hv])]
      exact ⟨b, append_escape_fail sg M junk b M name v (by omega)⟩

theorem lit_path_ne_zero : (∀ x ∈ lit "/api/v1/namespaces/", x ≠ 0)
    ∧ (∀ x ∈ lit "/pods/", x ≠ 0) ∧ (∀ x ∈ lit "/", x ≠ 0)
    ∧ (∀ x ∈ lit "exec", x ≠ 0) ∧ (∀ x ∈ lit "attach", x ≠ 0)
    ∧ (∀ x ∈ lit "stdin=true&stdout=true&tty=true", x ≠ 0) := by
  decide

theorem pathText_ne_zero (sg : Bool) (ns pod : List Nat) (cmd : Option (List Nat)) :
    ∀ x ∈ pathText sg ns pod cmd, x ≠ 0 := by
  obtain ⟨h1, h2, h3, h4, h5, _⟩ := lit_path_ne_zero
  intro x hx
  simp only [pathText, verbText, List.mem_append] at hx
  rcases hx with ((((h | h) | h) | h) | h) | h
  · exact h1 x h
  · exact escText_ne_zero sg ns x h
  · exact h2 x h
  · exact escText_ne_zero sg pod x h
  · exact h3 x h
  · split at h
    · exact h4 x h
    · exact h5 x h

theorem paramsText_ne_zero (sg : Bool) (M : Nat) (cont cmd : Option (List Nat)) :
    ∀ x ∈ paramsText sg M cont cmd, x ≠ 0 :=
  paramsAfter_ne_zero sg M _ _ cont (paramsAfter_ne_zero sg M _ _ cmd (by simp))

theorem uriText_ne_zero (sg : Bool) (M : Nat) (ns pod : List Nat)
    (cont cmd : Option (List Nat)) : ∀ x ∈ uriText sg M ns pod cont cmd, x ≠ 0 := by
  intro x hx
  simp only [uriText, List.mem_append, List.mem_cons] at hx
  rcases hx with (h | h | h) | h
  · exact pathText_ne_zero sg ns pod cmd x h
  · rw [h]; decide
  · exact paramsText_ne_zero sg M cont cmd x h
  · exact lit_path_ne_zero.2.2.2.2.2 x h

theorem uriFits_iff (sg : Bool) (M : Nat) (ns pod : List Nat) (cont cmd : Option (List Nat)) :
    uriFits sg M ns pod cont cmd = true ↔
      ((escText sg ns).length + 1 ≤ M ∧ (escText sg pod).length + 1 ≤ M
        ∧ (pathText sg ns pod cmd).length < M
        ∧ paramFits sg M [] (lit "command") cmd = true
        ∧ paramFits sg M (paramsAfter sg M [] (lit "command") cmd) (lit "container") cont
            = true) := by
  simp only [uriFits, Bool.and_eq_true, decide_eq_true_eq]
  tauto

/-- The builder either fails before its last `snprintf`, leaving `buffer`
alone, or reaches it with `endpoint_path` and `endpoint_params` holding
`pathText` and `paramsText`. -/
theorem endpoint_uri_cases (sg : Bool) (M : Nat) (junk : Nat → Nat → Nat) (buffer : Buf)
    (length : Int) (ns pod : List Nat) (cont cmd : Option (List Nat))
    (hM : (M : Int) ≤ INT_MAX) :
    if uriFits sg M ns pod cont cmd = true then
      ∃ p q, Holds p (pathText sg ns pod cmd) ∧ Holds q (paramsText sg M cont cmd)
        ∧ guac_kubernetes_endpoint_uri sg M junk buffer length ns pod cont cmd
          = endpoint_uri_combine buffer length p q
    else guac_kubernetes_endpoint_uri sg M junk buffer length ns pod cont cmd
      = some (1, buffer) := by
  have hM1 : (M : Int) ≤ 2147483647 := hM
  unfold guac_kubernetes_endpoint_uri
  by_cases h1 : (escText sg ns).length + 1 ≤ M
  swap
  · have hn : ¬ uriFits sg M ns pod cont cmd = true := by
      rw [uriFits_iff]; tauto
    rw [if_neg hn]
    obtain ⟨o, ho, _⟩ := escape_fail sg (uninit (junk 0) M) (M : Int) ns
      (by omega) (by simp [uninit_length])
    rw [ho]
    simp
  obtain ⟨o1, ho1, hH1, _⟩ := escape_ok sg (uninit (junk 0) M) M ns h1
    (by simp [uninit_length])
  rw [ho1]
  simp only [ne_eq, not_true_eq_false, if_false]
  by_cases h2 : (escText sg pod).length + 1 ≤ M
  swap
  · have hn : ¬ uriFits sg M ns pod cont cmd = true := by
      rw [uriFits_iff]; tauto
    rw [if_neg hn]
    obtain ⟨o, ho, _⟩ := escape_fail sg (uninit (junk 1) M) (M : Int) pod
      (by omega) (by simp [uninit_length])
    rw [ho]
    simp
  obtain ⟨o2, ho2, hH2, _⟩ := escape_ok sg (uninit (junk 1) M) M pod h2
    (by simp [uninit_length])
  rw [ho2]
  simp only [ne_eq, not_true_eq_false, if_false, hH1.cstr_eq, hH2.cstr_eq]
  rw [show (lit "/api/v1/namespaces/" ++ escText sg ns ++ lit "/pods/" ++ escText sg pod
      ++ lit "/" ++ if cmd.isSome = true then lit "exec" else lit "attach")
    = pathText sg ns pod cmd from rfl]
  obtain ⟨p, hp, hHp, _⟩ := snprintf_holds (uninit (junk 2) M) [] (pathText sg ns pod cmd) M
    rfl (by simp) (pathText_ne_zero sg ns pod cmd) (by omega)
    (by simp only [List.length_nil, List.length_take, uninit_length]; omega)
  rw [List.length_nil] at hp
  rw [hp]
  simp only []
  generalize hL : (pathText sg ns pod cmd).length = L at *
  by_cases h3 : L < M
  swap
  · have hn : ¬ uriFits sg M ns pod cont cmd = true := by
      rw [uriFits_iff, hL]; tauto
    rw [if_neg hn]
    have hw : ((if (L : Int) ≤ INT_MAX then (L : Int) else -1) < 0
        ∨ (if (L : Int) ≤ INT_MAX then (L : Int) else -1) ≥ (M : Int)) := by
      unfold INT_MAX
      split <;> omega
    rw [if_pos hw]
  have hw : ¬ ((if (L : Int) ≤ INT_MAX then (L : Int) else -1) < 0
      ∨ (if (L : Int) ≤ INT_MAX then (L : Int) else -1) ≥ (M : Int)) := by
    unfold INT_MAX
    split <;> omega
  rw [if_neg hw]
  rw [List.nil_append, List.take_of_length_le (by omega)] at hHp
  have hst : 0 + [0].length ≤ (uninit (junk 3) M).length := by
    simp only [uninit_length, List.length_cons, List.length_nil]
    omega
  rw [store_eq _ _ _ hst]
  simp only []
  have hq0 : Holds (List.take 0 (uninit (junk 3) M) ++ [0]
      ++ List.drop (0 + [0].length) (uninit (junk 3) M)) [] :=
    ⟨by simp, List.drop (0 + [0].length) (uninit (junk 3) M), by simp⟩
  have hq0l : (List.take 0 (uninit (junk 3) M) ++ [0]
      ++ List.drop (0 + [0].length) (uninit (junk 3) M)).length = M := by
    rw [stored_length _ _ _ hst, uninit_length]
  have ha := append_if_supplied_spec sg M (junk 4) _ [] (lit "command") cmd hq0 hq0l hM
  by_cases h4 : paramFits sg M [] (lit "command") cmd = true
  swap
  · have hn : ¬ uriFits sg M ns pod cont cmd = true := by
      rw [uriFits_iff]; tauto
    rw [if_neg hn]
    rw [if_neg h4] at ha
    obtain ⟨b1, hb1⟩ := ha
    rw [hb1]
    simp
  rw [if_pos h4] at ha
  obtain ⟨q1, hq1, hHq1, hq1l⟩ := ha
  rw [hq1]
  simp only [ne_eq, not_true_eq_false, if_false]
  have hb := append_if_supplied_spec sg M (junk 5) q1 _ (lit "container") cont hHq1 hq1l hM
  by_cases h5 : paramFits sg M (paramsAfter sg M [] (lit "command") cmd) (lit "container")
      cont = true
  swap
  · have hn : ¬ uriFits sg M ns pod cont cmd = true := by
      rw [uriFits_iff]; tauto
    rw [if_neg hn]
    rw [if_neg h5] at hb
    obtain ⟨b1, hb1⟩ := hb
    rw [hb1]
    simp
  rw [if_pos h5] at hb
  obtain ⟨q2, hq2, hHq2, _⟩ := hb
  rw [hq2]
  simp only [ne_eq, not_true_eq_false, if_false]
  have hy : uriFits sg M ns pod cont cmd = true := by
    rw [uriFits_iff, hL]; tauto
  rw [if_pos hy]
  exact ⟨p, q2, hHp, hHq2, rfl⟩

/-! ## The last `snprintf` of the builder -/

theorem combine_eq (buffer : Buf) (cap : Nat) (p q P Q : List Nat) (hp : Holds p P)
    (hq : Holds q Q) (hcap1 : 1 ≤ cap) (hcap : (cap : Int) ≤ INT_MAX)
    (hU : ((P ++ 63 :: Q ++ lit "stdin=true&stdout=true&tty=true").length : Int) ≤ INT_MAX)
    (hfit : ((P ++ 63 :: Q ++ lit "stdin=true&stdout=true&tty=true").take (cap - 1)).length + 1
      ≤ buffer.length) :
    ∃ b1, endpoint_uri_combine buffer (cap : Int) p q
        = some (if (P ++ 63 :: Q ++ lit "stdin=true&stdout=true&tty=true").length + 2 ≤ cap
            then 0 else 1, b1)
      ∧ Holds b1 ((P ++ 63 :: Q ++ lit "stdin=true&stdout=true&tty=true").take (cap - 1))
      ∧ b1.length = buffer.length := by
  have hne : ∀ x ∈ P ++ 63 :: Q ++ lit "stdin=true&stdout=true&tty=true", x ≠ 0 := by
    intro x hx
    simp only [List.mem_append, List.mem_cons] at hx
    rcases hx with (h | h | h) | h
    · exact hp.1 x h
    · rw [h]; decide
    · exact hq.1 x h
    · exact lit_path_ne_zero.2.2.2.2.2 x h
  obtain ⟨b1, h1, h2, h3⟩ := snprintf_holds buffer []
    (P ++ 63 :: Q ++ lit "stdin=true&stdout=true&tty=true") cap rfl (by simp) hne hcap1
    (by simpa using hfit)
  refine ⟨b1, ?_, by simpa using h2, h3⟩
  unfold endpoint_uri_combine
  rw [hp.cstr_eq, hq.cstr_eq, size_t_natCast cap hcap]
  rw [List.length_nil] at h1
  rw [h1, if_pos hU]
  simp only [Option.some.injEq, Prod.mk.injEq, and_true]
  generalize (P ++ 63 :: Q ++ lit "stdin=true&stdout=true&tty=true").length = L
  by_cases hl : L + 2 ≤ cap
  · rw [if_pos hl, if_pos (by omega)]
  · rw [if_neg hl, if_neg (by omega)]

theorem combine_inv (buffer : Buf) (length : Int) (p q P Q : List Nat) (hp : Holds p P)
    (hq : Holds q Q) (hlen : length ≤ INT_MAX)
    (hU : ((P ++ 63 :: Q ++ lit "stdin=true&stdout=true&tty=true").length : Int) ≤ INT_MAX)
    (out : Buf) (h : endpoint_uri_combine buffer length p q = some (0, out)) :
    ((P ++ 63 :: Q ++ lit "stdin=true&stdout=true&tty=true").length : Int) + 2 ≤ length
      ∧ Holds out (P ++ 63 :: Q ++ lit "stdin=true&stdout=true&tty=true") := by
  have h0 := h
  unfold endpoint_uri_combine at h
  rw [hp.cstr_eq, hq.cstr_eq] at h
  generalize hUd : P ++ 63 :: Q ++ lit "stdin=true&stdout=true&tty=true" = U at *
  cases hs : snprintf buffer 0 (size_t length) U with
  | none => rw [hs] at h; simp at h
  | some r =>
    obtain ⟨w, b1⟩ := r
    rw [hs] at h
    simp only [Option.some.injEq, Prod.mk.injEq] at h
    have hw := snprintf_fst buffer 0 (size_t length) U w b1 hs
    rw [if_pos hU] at hw
    have hlt : (U.length : Int) < length - 1 := by
      by_contra hc
      rw [hw, if_neg hc] at h
      exact absurd h.1 (by decide)
    obtain ⟨cap, rfl⟩ : ∃ cap : Nat, length = (cap : Int) := ⟨length.toNat, by omega⟩
    have hcap1 : 1 ≤ cap := by omega
    rw [size_t_natCast cap hlen] at hs
    have hfit := snprintf_inv buffer 0 cap U hcap1 w b1 hs
    obtain ⟨b3, h3, h4, _⟩ := combine_eq buffer cap p q P Q hp hq hcap1 hlen
      (by rw [hUd]; exact hU) (by rw [hUd]; omega)
    rw [h0] at h3
    simp only [Option.some.injEq, Prod.mk.injEq] at h3
    rw [hUd] at h4
    rw [← h3.2, List.take_of_length_le (by omega)] at h4
    exact ⟨by omega, h4⟩

/-! ## The builder: results -/

theorem uriText_length_le (sg : Bool) (M : Nat) (ns pod : List Nat)
    (cont cmd : Option (List Nat)) (hfit : uriFits sg M ns pod cont cmd = true) :
    (uriText sg M ns pod cont cmd).length ≤ 2 * M + 30 := by
  obtain ⟨h1, _, h3, _, _⟩ := (uriFits_iff sg M ns pod cont cmd).1 hfit
  have hq : (paramsText sg M cont cmd).length < M :=
    paramsAfter_length sg M _ _ cont (paramsAfter_length sg M _ _ cmd
      (by simp only [List.length_nil]; omega))
  have hf : (lit "stdin=true&stdout=true&tty=true").length = 31 := by decide
  simp only [uriText, List.length_append, List.length_cons, hf]
  omega

/-- When nothing overflows inside and the capacity exceeds the length of the
URI by at least two, the builder returns 0 and the buffer holds the URI. -/
theorem endpoint_uri_ok (sg : Bool) (M : Nat) (junk : Nat → Nat → Nat) (buffer : Buf)
    (cap : Nat) (ns pod : List Nat) (cont cmd : Option (List Nat))
    (hM : (M : Int) ≤ INT_MAX) (hcap : (cap : Int) ≤ INT_MAX)
    (hfit : uriFits sg M ns pod cont cmd = true)
    (hlen : (uriText sg M ns pod cont cmd).length + 2 ≤ cap) (hbuf : cap ≤ buffer.length) :
    ∃ out, guac_kubernetes_endpoint_uri sg M junk buffer (cap : Int) ns pod cont cmd
        = some (0, out) ∧ Holds out (uriText sg M ns pod cont cmd) := by
  have hc := endpoint_uri_cases sg M junk buffer (cap : Int) ns pod cont cmd hM
  rw [if_pos hfit] at hc
  obtain ⟨p, q, hp, hq, he⟩ := hc
  have hcap1 : (cap : Int) ≤ 2147483647 := hcap
  obtain ⟨b1, h1, h2, _⟩ := combine_eq buffer cap p q _ _ hp hq (by omega) hcap
    (by show _ ≤ (2147483647 : Int); unfold uriText at hlen; omega)
    (by simp only [List.length_take]; omega)
  unfold uriText at hlen ⊢
  rw [if_pos hlen] at h1
  rw [List.take_of_length_le (by omega)] at h2
  exact ⟨b1, he.trans h1, h2⟩

/-- When nothing overflows inside and the capacity is exactly the length of
the URI plus one, the buffer receives the complete URI and the builder
returns 1. -/
theorem endpoint_uri_exact_capacity (sg : Bool) (M : Nat) (junk : Nat → Nat → Nat)
    (buffer : Buf) (ns pod : List Nat) (cont cmd : Option (List Nat))
    (hM : (M : Int) ≤ INT_MAX)
    (hcap : ((uriText sg M ns pod cont cmd).length : Int) + 1 ≤ INT_MAX)
    (hfit : uriFits sg M ns pod cont cmd = true)
    (hbuf : (uriText sg M ns pod cont cmd).length + 1 ≤ buffer.length) :
    ∃ out, guac_kubernetes_endpoint_uri sg M junk buffer
        (((uriText sg M ns pod cont cmd).length + 1 : Nat) : Int) ns pod cont cmd
        = some (1, out) ∧ Holds out (uriText sg M ns pod cont cmd) := by
  have hc := endpoint_uri_cases sg M junk buffer
    (((uriText sg M ns pod cont cmd).length + 1 : Nat) : Int) ns pod cont cmd hM
  rw [if_pos hfit] at hc
  obtain ⟨p, q, hp, hq, he⟩ := hc
  have hcap1 : ((uriText sg M ns pod cont cmd).length : Int) + 1 ≤ 2147483647 := hcap
  obtain ⟨b1, h1, h2, _⟩ := combine_eq buffer ((uriText sg M ns pod cont cmd).length + 1)
    p q _ _ hp hq (by omega) (by push_cast; exact hcap)
    (by show _ ≤ (2147483647 : Int); unfold uriText at hcap1; omega)
    (by simp only [List.length_take]; unfold uriText at hbuf; omega)
  unfold uriText at h1 h2 ⊢
  rw [if_neg (by omega)] at h1
  rw [List.take_of_length_le (by omega)] at h2
  exact ⟨b1, he.trans h1, h2⟩

/-- Whenever the builder returns 0, nothing overflowed inside, the capacity
exceeds the length of the URI by at least two and the buffer holds the URI. -/
theorem endpoint_uri_zero (sg : Bool) (M : Nat) (junk : Nat → Nat → Nat) (buffer : Buf)
    (length : Int) (ns pod : List Nat) (cont cmd : Option (List Nat))
    (hM : 2 * (M : Int) + 30 ≤ INT_MAX) (hlen : length ≤ INT_MAX) (out : Buf)
    (h : guac_kubernetes_endpoint_uri sg M junk buffer length ns pod cont cmd
      = some (0, out)) :
    uriFits sg M ns pod cont cmd = true
      ∧ ((uriText sg M ns pod cont cmd).length : Int) + 2 ≤ length
      ∧ Holds out (uriText sg M ns pod cont cmd) := by
  have hM1 : 2 * (M : Int) + 30 ≤ 2147483647 := hM
  have hc := endpoint_uri_cases sg M junk buffer length ns pod cont cmd
    (by show _ ≤ (2147483647 : Int); omega)
  by_cases hfit : uriFits sg M ns pod cont cmd = true
  · rw [if_pos hfit] at hc
    obtain ⟨p, q, hp, hq, he⟩ := hc
    have hl := uriText_length_le sg M ns pod cont cmd hfit
    rw [he] at h
    obtain ⟨h1, h2⟩ := combine_inv buffer length p q _ _ hp hq hlen
      (by show _ ≤ (2147483647 : Int); unfold uriText at hl; omega) out h
    exact ⟨hfit, h1, h2⟩
  · rw [if_neg hfit, h] at hc
    simp at hc

set_option maxRecDepth 100000 in
theorem safe_eq_unreserved : ∀ sg : Bool, ∀ b : Nat, b < 256 → 1 ≤ b →
    guac_kubernetes_is_url_safe sg (toChar sg b) = isUnreserved b := by
  decide

theorem requiredCapacity_cons (c : Nat) (str : List Nat) :
    requiredCapacity (c :: str)
      = requiredCapacity str + if isUnreserved c = true then 1 else 3 := by
  unfold requiredCapacity
  cases h : isUnreserved c <;> simp [List.countP_cons, h] <;> omega

/-- On a NUL-free string of bytes the escaped text, with its terminator, has
the length the specification counts. -/
theorem escText_length (sg : Bool) (str : List Nat) (hstr : ∀ b ∈ str, 1 ≤ b ∧ b ≤ 255) :
    (escText sg str).length + 1 = requiredCapacity str := by
  induction str with
  | nil => simp [escText, requiredCapacity]
  | cons c str ih =>
    have hc := hstr c (List.mem_cons_self _ _)
    have ih1 := ih (fun b hb => hstr b (List.mem_cons_of_mem _ hb))
    have hsafe := safe_eq_unreserved sg c (by omega) hc.1
    rw [requiredCapacity_cons]
    cases hu : isUnreserved c
    · rw [escText_triplet sg c str (by omega) (hsafe.trans hu)]
      simp only [List.length_append, escByte_length, Bool.false_eq_true, if_false]
      omega
    · rw [escText_safe sg c str (by omega) (hsafe.trans hu)]
      simp only [List.length_cons, if_true]
      omega

/-- A NUL-free string of safe bytes is its own escaped text. -/
theorem escText_of_safe (sg : Bool) (str : List Nat)
    (h : ∀ c ∈ str, c ≠ 0 ∧ guac_kubernetes_is_url_safe sg (toChar sg c) = true) :
    escText sg str = str := by
  induction str with
  | nil => rfl
  | cons c str ih =>
    obtain ⟨hc, hs⟩ := h c (List.mem_cons_self _ _)
    rw [escText_safe sg c str hc hs, ih (fun x hx => h x (List.mem_cons_of_mem _ hx))]

/-! ## Escaped text has no structural byte -/

theorem structural_not_safe : ∀ sg : Bool, ∀ b ∈ [47, 63, 38, 61, 32],
    guac_kubernetes_is_url_safe sg (toChar sg b) = false := by
  decide

theorem escText_not_structural (sg : Bool) (v : List Nat) :
    ∀ b ∈ escText sg v, isStructural b = false := by
  intro b hb
  rcases escText_mem sg v b hb with ⟨_, _, h⟩ | h
  · cases hs : isStructural b
    · rfl
    · have hm : b ∈ [47, 63, 38, 61, 32] := by
        simp only [isStructural, Bool.or_eq_true, beq_iff_eq] at hs
        simp only [List.mem_cons, List.mem_singleton]
        tauto
      rw [structural_not_safe sg b hm] at h
      exact absurd h (by decide)
  · simp only [isTripletByte, Bool.or_eq_true, beq_iff_eq, Bool.and_eq_true,
      decide_eq_true_eq] at h
    simp only [isStructural, Bool.or_eq_false_iff, beq_eq_false_iff_ne, ne_eq]
    omega

theorem escText_count_slash (sg : Bool) (v : List Nat) : (escText sg v).count 47 = 0 := by
  rw [List.count_eq_zero]
  intro h
  have := escText_not_structural sg v 47 h
  exact absurd this (by decide)

theorem paramText_count_slash (sg : Bool) (s v : List Nat) (name : List Nat)
    (hname : (cstr name).count 47 = 0) : (paramText sg s name v).count 47 = 0 := by
  unfold paramText
  simp only [List.count_append, List.count_cons, hname, escText_count_slash]
  split <;> simp

theorem count_take_zero (l : List Nat) (k a : Nat) (h : l.count a = 0) :
    (l.take k).count a = 0 := by
  rw [List.count_eq_zero] at h ⊢
  exact fun hm => h (List.mem_of_mem_take hm)

theorem paramsAfter_count_slash (sg : Bool) (M : Nat) (s name : List Nat)
    (v : Option (List Nat)) (hs : s.count 47 = 0) (hname : (cstr name).count 47 = 0) :
    (paramsAfter sg M s name v).count 47 = 0 := by
  cases v with
  | none => exact hs
  | some v =>
    simp only [paramsAfter, List.count_append, hs, Nat.zero_add]
    exact count_take_zero _ _ _ (paramText_count_slash sg s v name hname)

theorem paramsText_count_slash (sg : Bool) (M : Nat) (cont cmd : Option (List Nat)) :
    (paramsText sg M cont cmd).count 47 = 0 :=
  paramsAfter_count_slash sg M _ _ cont
    (paramsAfter_count_slash sg M _ _ cmd (by simp) (by decide)) (by decide)

theorem uriText_count_slash (sg : Bool) (M : Nat) (ns pod : List Nat)
    (cont cmd : Option (List Nat)) : (uriText sg M ns pod cont cmd).count 47 = 7 := by
  have h1 : (lit "/api/v1/namespaces/").count 47 = 4 := by decide
  have h2 : (lit "/pods/").count 47 = 2 := by decide
  have h3 : (lit "/").count 47 = 1 := by decide
  have h4 : (verbText cmd).count 47 = 0 := by
    unfold verbText
    split <;> decide
  have h5 : (lit "stdin=true&stdout=true&tty=true").count 47 = 0 := by decide
  simp only [uriText, pathText, List.count_append, List.count_cons, h1, h2, h3, h4, h5,
    escText_count_slash, paramsText_count_slash]
  simp

/-- When the builder reaches its last `snprintf`, the parameter string is an
initial part of the uncut parameter text. -/
theorem paramsText_prefix (sg : Bool) (M : Nat) (ns pod : List Nat)
    (cont cmd : Option (List Nat)) (hfit : uriFits sg M ns pod cont cmd = true) :
    paramsText sg M cont cmd <+: paramsFull sg cont cmd := by
  obtain ⟨_, _, _, h4, _⟩ := (uriFits_iff sg M ns pod cont cmd).1 hfit
  have hq1 : paramsAfter sg M [] (lit "command") cmd
      = optParamText sg [] (lit "command") cmd := by
    cases cmd with
    | none => rfl
    | some v =>
      simp only [paramFits, Bool.and_eq_true, decide_eq_true_eq] at h4
      simp only [paramsAfter, optParamText, List.nil_append, List.length_nil]
      exact List.take_of_length_le (by omega)
  unfold paramsText paramsFull
  rw [hq1]
  cases cont with
  | none =>
    simp only [paramsAfter, optParamText, List.append_nil]
    exact List.prefix_refl _
  | some v =>
    simp only [paramsAfter, optParamText]
    exact (List.prefix_append_right_inj _).2 (List.take_prefix _ _)

/-! ## What a result of the escaper implies -/

/-- Whenever the loop returns 0, the capacity it was given and the array
covered the escaped text and its terminator. -/
theorem escape_loop_zero (sg : Bool) (str : List Nat) :
    ∀ (output : Buf) (current : Nat) (length : Int) (o : Buf),
      escape_loop sg output current length str = some (0, o) →
      ((escText sg str).length : Int) + 1 ≤ length
        ∧ current + (escText sg str).length + 1 ≤ output.length := by
  have hend : ∀ (output : Buf) (current : Nat) (length : Int) (o : Buf),
      (if length < 1 then some ((1 : Int), output)
        else (store output current [0]).map (fun o => ((0 : Int), o))) = some (0, o) →
      (1 : Int) ≤ length ∧ current + 1 ≤ output.length := by
    intro output current length o h
    by_cases h1 : length < 1
    · rw [if_pos h1] at h
      simp at h
    · rw [if_neg h1] at h
      refine ⟨by omega, ?_⟩
      by_contra hc
      have : store output current [0] = none := by
        unfold store
        rw [if_neg]
        simpa using hc
      rw [this] at h
      simp at h
  induction str with
  | nil =>
    intro output current length o h
    rw [escape_loop_end _ _ _ _ _ (Or.inl rfl)] at h
    simpa [escText] using hend output current length o h
  | cons c str ih =>
    intro output current length o h
    by_cases hc : c = 0
    · subst hc
      rw [escape_loop_end _ _ _ _ _ (Or.inr ⟨str, rfl⟩)] at h
      rw [escText_nul]
      simpa using hend output current length o h
    · cases hs : guac_kubernetes_is_url_safe sg (toChar sg c)
      · rw [escape_loop_triplet sg _ _ _ c str hc hs] at h
        rw [escText_triplet sg c str hc hs]
        simp only [List.length_append, escByte_length]
        by_cases h1 : length < 4
        · rw [if_pos h1] at h
          simp at h
        · rw [if_neg h1] at h
          cases hsn : snprintf output current 4 (37 :: fmt02X (unsigned (toChar sg c))) with
          | none => rw [hsn] at h; simp at h
          | some r =>
            obtain ⟨w, o1⟩ := r
            have hfit := snprintf_inv output current 4 _ (by decide) w o1 hsn
            have hl := fmt02X_length (unsigned (toChar sg c))
            simp only [List.length_take, List.length_cons] at hfit
            have hsn2 := snprintf_escByte sg output current c (by omega)
            rw [hsn2] at hsn
            simp only [Option.some.injEq, Prod.mk.injEq] at hsn
            rw [hsn2, Option.some_bind] at h
            have hl4 : (escByte sg c ++ [0]).length = 4 := by simp [escByte_length]
            have hst : current + (escByte sg c ++ [0]).length ≤ output.length := by
              rw [hl4]; omega
            have e4 : current + 4 = current + (escByte sg c ++ [0]).length := by rw [hl4]
            simp only [] at h
            rw [e4] at h
            obtain ⟨i1, i2⟩ := ih _ _ _ _ h
            rw [stored_length _ _ _ hst] at i2
            exact ⟨by push_cast; omega, by omega⟩
      · rw [escape_loop_safe sg _ _ _ c str hc hs] at h
        rw [escText_safe sg c str hc hs]
        simp only [List.length_cons]
        by_cases h1 : length < 1
        · rw [if_pos h1] at h
          simp at h
        · rw [if_neg h1] at h
          by_cases hst : current + [c].length ≤ output.length
          · rw [store_eq _ _ _ hst, Option.some_bind] at h
            obtain ⟨i1, i2⟩ := ih _ _ _ _ h
            rw [stored_length _ _ _ hst] at i2
            exact ⟨by push_cast; omega, by omega⟩
          · have : store output current [c] = none := by
              unfold store
              rw [if_neg hst]
            rw [this] at h
            simp at h

/-- Whenever the escaper returns 0, the array holds the escaped text. -/
theorem escape_zero (sg : Bool) (output : Buf) (length : Int) (str : List Nat) (o : Buf)
    (h : guac_kubernetes_escape_url_component sg output length str = some (0, o)) :
    ((escText sg str).length : Int) + 1 ≤ length ∧ Holds o (escText sg str) := by
  obtain ⟨h1, h2⟩ := escape_loop_zero sg str output 0 length o h
  have h3 := escape_loop_ok sg str output 0 length h1 h2
  unfold guac_kubernetes_escape_url_component at h
  rw [h] at h3
  simp only [Option.some.injEq, Prod.mk.injEq, true_and] at h3
  refine ⟨h1, escText_ne_zero sg str,
    List.drop (0 + (escText sg str).length + 1) output, ?_⟩
  rw [h3, List.take_zero, List.nil_append]

/-! ## Escaped text is well formed -/

theorem hexDigit_upper (d : Nat) (h : d < 16) : isUpperHex (hexDigit d) = true := by
  unfold hexDigit isUpperHex
  split <;> simp <;> omega

theorem hexAux_upper (fuel u : Nat) (acc : List Nat)
    (hacc : ∀ b ∈ acc, isUpperHex b = true) :
    ∀ b ∈ hexAux fuel u acc, isUpperHex b = true := by
  induction fuel generalizing u acc with
  | zero => simpa [hexAux] using hacc
  | succ n ih =>
    have hacc1 : ∀ b ∈ hexDigit (u % 16) :: acc, isUpperHex b = true := by
      intro b hb
      rcases List.mem_cons.1 hb with rfl | hb
      · exact hexDigit_upper _ (Nat.mod_lt _ (by decide))
      · exact hacc b hb
    unfold hexAux
    split
    · exact hacc1
    · exact ih _ _ hacc1

theorem fmt02X_upper (u : Nat) : ∀ b ∈ fmt02X u, isUpperHex b = true := by
  intro b hb
  unfold fmt02X at hb
  rcases List.mem_append.1 hb with h | h
  · rw [(List.mem_replicate.1 h).2]; rfl
  · exact hexAux_upper _ _ _ (by simp) b h

/-- The three bytes stored for a byte that is not safe are `%` and two
uppercase hexadecimal digits. -/
theorem escByte_form (sg : Bool) (c : Nat) :
    ∃ h l, escByte sg c = [37, h, l] ∧ isUpperHex h = true ∧ isUpperHex l = true := by
  have hl := fmt02X_length (unsigned (toChar sg c))
  have hu := fmt02X_upper (unsigned (toChar sg c))
  unfold escByte
  generalize fmt02X (unsigned (toChar sg c)) = d at hl hu
  match d, hl, hu with
  | h :: l :: t, _, hu =>
    exact ⟨h, l, by simp, hu h (by simp), hu l (by simp)⟩

theorem isUnreserved_ne_percent (c : Nat) (h : isUnreserved c = true) : c ≠ 37 := by
  rintro rfl
  exact absurd h (by decide)

/-- The escaped text of a NUL-free string of bytes is well formed. -/
theorem escText_form (sg : Bool) (str : List Nat) (hstr : ∀ b ∈ str, 1 ≤ b ∧ b ≤ 255) :
    isEscapedForm (escText sg str) = true := by
  unfold isEscapedForm
  induction str with
  | nil => rfl
  | cons c str ih =>
    have hc := hstr c (List.mem_cons_self _ _)
    have ih1 := ih (fun b hb => hstr b (List.mem_cons_of_mem _ hb))
    have hsafe := safe_eq_unreserved sg c (by omega) hc.1
    cases hu : isUnreserved c
    · rw [escText_triplet sg c str (by omega) (hsafe.trans hu)]
      obtain ⟨h, l, he, hh, hl⟩ := escByte_form sg c
      rw [he]
      simp [escapedFormAux, hh, hl, ih1]
    · rw [escText_safe sg c str (by omega) (hsafe.trans hu)]
      simp [escapedFormAux, isUnreserved_ne_percent c hu, hu, ih1]

/-! ## The path and the question mark -/

theorem takeWhile_append_of_ne (a : Nat) (P R : List Nat) (hP : ∀ x ∈ P, x ≠ a) :
    (P ++ a :: R).takeWhile (fun b => b != a) = P := by
  induction P with
  | nil => simp
  | cons x t ih =>
    have hx : x ≠ a := hP x (List.mem_cons_self _ _)
    have ht := ih (fun y hy => hP y (List.mem_cons_of_mem _ hy))
    simp [List.takeWhile_cons, hx, ht]

theorem pathText_no_question_mark (sg : Bool) (ns pod : List Nat) (cmd : Option (List Nat)) :
    ∀ x ∈ pathText sg ns pod cmd, x ≠ 63 := by
  have hesc : ∀ v : List Nat, ∀ x ∈ escText sg v, x ≠ 63 := by
    intro v x hx h63
    have := escText_not_structural sg v x hx
    rw [h63] at this
    exact absurd this (by decide)
  have h1 : ∀ x ∈ lit "/api/v1/namespaces/", x ≠ 63 := by decide
  have h2 : ∀ x ∈ lit "/pods/", x ≠ 63 := by decide
  have h3 : ∀ x ∈ lit "/", x ≠ 63 := by decide
  have h4 : ∀ x ∈ lit "exec", x ≠ 63 := by decide
  have h5 : ∀ x ∈ lit "attach", x ≠ 63 := by decide
  intro x hx
  simp only [pathText, verbText, List.mem_append] at hx
  rcases hx with ((((h | h) | h) | h) | h) | h
  · exact h1 x h
  · exact hesc ns x h
  · exact h2 x h
  · exact hesc pod x h
  · exact h3 x h
  · split at h
    · exact h4 x h
    · exact h5 x h

theorem isUnreserved_range (b : Nat) (h : isUnreserved b = true) : 1 ≤ b ∧ b ≤ 126 := by
  simp only [isUnreserved, Bool.or_eq_true, Bool.and_eq_true, decide_eq_true_eq,
    List.contains_cons, beq_iff_eq, List.contains_nil, Bool.or_false] at h
  omega

/-! ## The scan of an unterminated buffer -/

/-- When the `n = length - str_len` bytes still covered by the capacity are all
different from NUL, the scan leaves through `return 1`. -/
theorem scan_loop_unterminated (length : Int) :
    ∀ (l : List Nat) (k : Nat) (q : Bool) (n : Nat), 1 ≤ n → ((k + n : Nat) : Int) = length →
      n ≤ l.length → (∀ x ∈ l.take n, x ≠ 0) →
      scan_loop length l k q = Scan.unterminated := by
  intro l
  induction l with
  | nil =>
    intro k q n hn _ hl _
    simp only [List.length_nil] at hl
    omega
  | cons c rest ih =>
    intro k q n hn hlen hl hnz
    obtain ⟨m, rfl⟩ : ∃ m, n = m + 1 := ⟨n - 1, by omega⟩
    have hc : c ≠ 0 := hnz c (by simp)
    by_cases h1 : (((k + 1 : Nat) : Int) ≥ length)
    · simp only [scan_loop, hc, if_false, h1, if_true]
    · rw [scan_loop_cons length c rest k q hc h1]
      apply ih (k + 1) _ m
      · push_cast at hlen h1
        omega
      · push_cast at hlen ⊢
        omega
      · simp only [List.length_cons] at hl
        omega
      · intro x hx
        exact hnz x (by simp only [List.take_succ_cons]; exact List.mem_cons_of_mem _ hx)

/-! ## The stores of the escaper stay below the capacity -/

/-- Whatever the loop returns, the array keeps its size and its bytes from
offset `current + length` on. -/
theorem escape_loop_frame (sg : Bool) (str : List Nat) :
    ∀ (output : Buf) (current : Nat) (length : Int) (r : Int) (o : Buf),
      current + length.toNat ≤ output.length →
      escape_loop sg output current length str = some (r, o) →
      o.length = output.length
        ∧ o.drop (current + length.toNat) = output.drop (current + length.toNat) := by
  have hend : ∀ (output : Buf) (current : Nat) (length : Int) (r : Int) (o : Buf),
      current + length.toNat ≤ output.length →
      (if length < 1 then some ((1 : Int), output)
        else (store output current [0]).map (fun o => ((0 : Int), o))) = some (r, o) →
      o.length = output.length
        ∧ o.drop (current + length.toNat) = output.drop (current + length.toNat) := by
    intro output current length r o hbuf h
    by_cases h1 : length < 1
    · rw [if_pos h1] at h
      simp only [Option.some.injEq, Prod.mk.injEq] at h
      rw [← h.2]
      exact ⟨rfl, rfl⟩
    · rw [if_neg h1] at h
      have hst : current + [0].length ≤ output.length := by
        simp only [List.length_cons, List.length_nil]; omega
      rw [store_eq _ _ _ hst] at h
      simp only [Option.map_some', Option.some.injEq, Prod.mk.injEq] at h
      rw [← h.2]
      exact ⟨stored_length _ _ _ hst, stored_drop _ _ _ _ hst
        (by simp only [List.length_cons, List.length_nil]; omega)⟩
  induction str with
  | nil =>
    intro output current length r o hbuf h
    rw [escape_loop_end _ _ _ _ _ (Or.inl rfl)] at h
    exact hend output current length r o hbuf h
  | cons c str ih =>
    intro output current length r o hbuf h
    by_cases hc : c = 0
    · subst hc
      rw [escape_loop_end _ _ _ _ _ (Or.inr ⟨str, rfl⟩)] at h
      exact hend output current length r o hbuf h
    · cases hs : guac_kubernetes_is_url_safe sg (toChar sg c)
      · rw [escape_loop_triplet sg _ _ _ c str hc hs] at h
        by_cases h1 : length < 4
        · rw [if_pos h1] at h
          simp only [Option.some.injEq, Prod.mk.injEq] at h
          rw [← h.2]
          exact ⟨rfl, rfl⟩
        · rw [if_neg h1, snprintf_escByte sg output current c (by omega),
            Option.some_bind] at h
          have hl4 : (escByte sg c ++ [0]).length = 4 := by simp [escByte_length]
          have hst : current + (escByte sg c ++ [0]).length ≤ output.length := by
            rw [hl4]; omega
          have e4 : current + 4 = current + (escByte sg c ++ [0]).length := by rw [hl4]
          simp only [] at h
          rw [e4] at h
          have hidx : current + 3 + (length - 3).toNat = current + length.toNat := by omega
          obtain ⟨i1, i2⟩ := ih _ _ _ _ _ (by rw [stored_length _ _ _ hst]; omega) h
          rw [hidx] at i2
          rw [i1, i2, stored_length _ _ _ hst,
            stored_drop _ _ _ _ hst (by rw [hl4]; omega)]
          exact ⟨rfl, rfl⟩
      · rw [escape_loop_safe sg _ _ _ c str hc hs] at h
        by_cases h1 : length < 1
        · rw [if_pos h1] at h
          simp only [Option.some.injEq, Prod.mk.injEq] at h
          rw [← h.2]
          exact ⟨rfl, rfl⟩
        · have hst : current + [c].length ≤ output.length := by
            simp only [List.length_cons, List.length_nil]; omega
          rw [if_neg h1, store_eq _ _ _ hst, Option.some_bind] at h
          have hidx : current + 1 + (length - 1).toNat = current + length.toNat := by omega
          obtain ⟨i1, i2⟩ := ih _ _ _ _ _ (by rw [stored_length _ _ _ hst]; omega) h
          rw [hidx] at i2
          rw [i1, i2, stored_length _ _ _ hst,
            stored_drop _ _ _ _ hst
              (by simp only [List.length_cons, List.length_nil]; omega)]
          exact ⟨rfl, rfl⟩

/-- On an array of at least `length` bytes the escaper returns a result. -/
theorem escape_total (sg : Bool) (output : Buf) (length : Int) (str : List Nat)
    (hbuf : length.toNat ≤ output.length) :
    ∃ r o, guac_kubernetes_escape_url_component sg output length str = some (r, o) := by
  by_cases h : ((escText sg str).length : Int) + 1 ≤ length
  · obtain ⟨cap, rfl⟩ : ∃ cap : Nat, length = (cap : Int) := ⟨length.toNat, by omega⟩
    obtain ⟨o, h1, _, _⟩ := escape_ok sg output cap str (by omega) (by simpa using hbuf)
    exact ⟨0, o, h1⟩
  · obtain ⟨o, h1, _⟩ := escape_fail sg output length str (by omega) hbuf
    exact ⟨1, o, h1⟩

/-! ## Percent decoding of escaped text -/

theorem hexValue_hexDigit : ∀ d : Nat, d < 16 → hexValue (hexDigit d) = some d := by
  decide

set_option maxRecDepth 100000 in
theorem escByte_7bit : ∀ sg : Bool, ∀ c : Nat, c < 128 →
    escByte sg c = [37, hexDigit (c / 16), hexDigit (c % 16)] := by
  decide

theorem percentDecodeFuel_nil (n : Nat) : percentDecodeFuel n [] = [] := by
  cases n <;> rfl

theorem percentDecodeFuel_cons (n c : Nat) (rest : List Nat) (hc : c ≠ 37) :
    percentDecodeFuel (n + 1) (c :: rest) = c :: percentDecodeFuel n rest := by
  match rest with
  | [] => rfl
  | [_] => rfl
  | h :: l :: t =>
    have : (c == 37) = false := by simpa using hc
    simp [percentDecodeFuel, this]

theorem percentDecodeFuel_percent (n h l x y : Nat) (rest : List Nat)
    (hx : hexValue h = some x) (hy : hexValue l = some y) :
    percentDecodeFuel (n + 1) (37 :: h :: l :: rest)
      = (16 * x + y) :: percentDecodeFuel n rest := by
  simp [percentDecodeFuel, hx, hy]

/-- Percent decoding undoes the escaping of a NUL-free 7-bit string. -/
theorem percentDecodeFuel_escText (sg : Bool) (str : List Nat)
    (h7 : ∀ b ∈ str, 1 ≤ b ∧ b ≤ 127) :
    ∀ fuel, (escText sg str).length ≤ fuel → percentDecodeFuel fuel (escText sg str) = str := by
  induction str with
  | nil =>
    intro fuel _
    exact percentDecodeFuel_nil fuel
  | cons c str ih =>
    intro fuel hf
    have hc := h7 c (List.mem_cons_self _ _)
    have ih1 := ih (fun b hb => h7 b (List.mem_cons_of_mem _ hb))
    have hsafe := safe_eq_unreserved sg c (by omega) hc.1
    cases hu : isUnreserved c
    · rw [escText_triplet sg c str (by omega) (hsafe.trans hu)] at hf ⊢
      rw [escByte_7bit sg c (by omega)] at hf ⊢
      simp only [List.length_append, List.length_cons, List.length_nil] at hf
      obtain ⟨n, rfl⟩ : ∃ n, fuel = n + 1 := ⟨fuel - 1, by omega⟩
      have hd : c / 16 < 16 := by omega
      have hm : c % 16 < 16 := Nat.mod_lt _ (by decide)
      rw [show [37, hexDigit (c / 16), hexDigit (c % 16)] ++ escText sg str
          = 37 :: hexDigit (c / 16) :: hexDigit (c % 16) :: escText sg str from rfl,
        percentDecodeFuel_percent n _ _ _ _ _ (hexValue_hexDigit _ hd) (hexValue_hexDigit _ hm),
        ih1 n (by omega), Nat.div_add_mod]
    · rw [escText_safe sg c str (by omega) (hsafe.trans hu)] at hf ⊢
      simp only [List.length_cons] at hf
      obtain ⟨n, rfl⟩ : ∃ n, fuel = n + 1 := ⟨fuel - 1, by omega⟩
      rw [percentDecodeFuel_cons n c _ (isUnreserved_ne_percent c hu), ih1 n (by omega)]

theorem percentDecode_escText (sg : Bool) (str : List Nat)
    (h7 : ∀ b ∈ str, 1 ≤ b ∧ b ≤ 127) : percentDecode (escText sg str) = str :=
  percentDecodeFuel_escText sg str h7 _ (Nat.le_refl _)

/-! ## The escaped text of a concatenation -/

theorem escText_append (sg : Bool) (a b : List Nat) (ha : ∀ x ∈ a, x ≠ 0) :
    escText sg (a ++ b) = escText sg a ++ escText sg b := by
  induction a with
  | nil => rfl
  | cons c t ih =>
    have hc : c ≠ 0 := ha c (List.mem_cons_self _ _)
    have iht := ih (fun x hx => ha x (List.mem_cons_of_mem _ hx))
    cases hs : guac_kubernetes_is_url_safe sg (toChar sg c)
    · rw [List.cons_append, escText_triplet sg c _ hc hs, escText_triplet sg c _ hc hs, iht,
        List.append_assoc]
    · rw [List.cons_append, escText_safe sg c _ hc hs, escText_safe sg c _ hc hs, iht,
        List.cons_append]

/-! ## The claims -/

/-- C1 (fails on the code where `char` is signed): the escaper writes the
single input byte 0xC3 as `%FF`, not `%C3`; the call returns 0, and percent
decoding the output yields the byte 0xFF instead of the input. -/
theorem C1_signed_char_breaks_round_trip (junk : Nat → Nat) :
    ∃ o, guac_kubernetes_escape_url_component true (uninit junk 4) 4 [195] = some (0, o)
      ∧ cstr o = lit "%FF" ∧ percentDecode (cstr o) = [255]
      ∧ percentDecode (cstr o) ≠ [195] := by
  obtain ⟨o, h1, h2, _⟩ := escape_ok true (uninit junk 4) 4 [195] (by decide)
    (by simp [uninit_length])
  have he : escText true [195] = lit "%FF" := by decide
  refine ⟨o, h1, ?_, ?_, ?_⟩
  · rw [h2.cstr_eq, he]
  · rw [h2.cstr_eq, he]; decide
  · rw [h2.cstr_eq, he]; decide

/-- C2: on a NUL-free string of bytes and an output array of at least
`capacity` bytes the escaper returns a result, and the result is 0 if and only
if `capacity` is at least
`N = 1 + (number of unreserved bytes) + 3 * (number of other bytes)`. -/
theorem C2_capacity_threshold (sg : Bool) (output : Buf) (capacity : Int) (str : List Nat)
    (hstr : ∀ b ∈ str, 1 ≤ b ∧ b ≤ 255) (hbuf : capacity.toNat ≤ output.length) :
    ∃ r o, guac_kubernetes_escape_url_component sg output capacity str = some (r, o)
      ∧ (r = 0 ↔ (requiredCapacity str : Int) ≤ capacity) := by
  have hN := escText_length sg str hstr
  by_cases h : (requiredCapacity str : Int) ≤ capacity
  · obtain ⟨cap, rfl⟩ : ∃ cap : Nat, capacity = (cap : Int) := ⟨capacity.toNat, by omega⟩
    obtain ⟨o, h1, _, _⟩ := escape_ok sg output cap str (by omega) (by simpa using hbuf)
    exact ⟨0, o, h1, by simp [h]⟩
  · obtain ⟨o, h1, _⟩ := escape_fail sg output capacity str (by omega) hbuf
    exact ⟨1, o, h1, by simp [h]⟩

/-- Witness of C2: `/a` and `a/` both need exactly 5 bytes; here `/a` at
capacity 5 and at capacity 4. -/
theorem C2_capacity_threshold_witness :
    (∀ b ∈ lit "/a", 1 ≤ b ∧ b ≤ 255) ∧ (5 : Int).toNat ≤ (List.replicate 5 0).length
      ∧ requiredCapacity (lit "/a") = 5 ∧ requiredCapacity (lit "a/") = 5
      ∧ ∃ r o, guac_kubernetes_escape_url_component true (List.replicate 5 0) 5 (lit "/a")
          = some (r, o) ∧ (r = 0 ↔ (requiredCapacity (lit "/a") : Int) ≤ 5) :=
  ⟨by decide, by decide, by decide, by decide,
    C2_capacity_threshold true (List.replicate 5 0) 5 (lit "/a") (by decide) (by decide)⟩

/-- C3 (fails on the code): for namespace `ns1`, pod `pod1`, container `main`
and command `/bin/bash` the builder returns 0 and the output has two `?`
between the verb and `command=`, not the single one of the claimed output. -/
theorem C3_exec_output_doubles_question_mark (sg : Bool) (junk : Nat → Nat → Nat)
    (fill : Nat → Nat) :
    ∃ out, guac_kubernetes_endpoint_uri sg 1024 junk (uninit fill 256) 256 (lit "ns1")
        (lit "pod1") (some (lit "main")) (some (lit "/bin/bash")) = some (0, out)
      ∧ cstr out = lit ("/api/v1/namespaces/ns1/pods/pod1/exec??command=%2Fbin%2Fbash"
          ++ "&container=mainstdin=true&stdout=true&tty=true")
      ∧ cstr out ≠ lit ("/api/v1/namespaces/ns1/pods/pod1/exec?command=%2Fbin%2Fbash"
          ++ "&container=mainstdin=true&stdout=true&tty=true") := by
  have hfit : uriFits sg 1024 (lit "ns1") (lit "pod1") (some (lit "main"))
      (some (lit "/bin/bash")) = true := by
    cases sg <;> decide
  have htxt : uriText sg 1024 (lit "ns1") (lit "pod1") (some (lit "main"))
      (some (lit "/bin/bash"))
      = lit ("/api/v1/namespaces/ns1/pods/pod1/exec??command=%2Fbin%2Fbash"
          ++ "&container=mainstdin=true&stdout=true&tty=true") := by
    cases sg <;> decide
  obtain ⟨out, h1, h2⟩ := endpoint_uri_ok sg 1024 junk (uninit fill 256) 256 (lit "ns1")
    (lit "pod1") (some (lit "main")) (some (lit "/bin/bash")) (by decide) (by decide) hfit
    (by rw [htxt]; decide) (by simp [uninit_length])
  refine ⟨out, h1, ?_, ?_⟩
  · rw [h2.cstr_eq, htxt]
  · rw [h2.cstr_eq, htxt]; decide

/-- C4: with container and command both `NULL`, escaped namespace and pod that
fit their arrays, a path shorter than `M`, and a capacity (an `int`, not larger
than the output array) that exceeds the length of the result by at least two,
the builder returns 0 and the output is `/api/v1/namespaces/` esc(namespace)
`/pods/` esc(pod) `/attach?stdin=true&stdout=true&tty=true`. -/
theorem C4_attach_output (sg : Bool) (M : Nat) (junk : Nat → Nat → Nat) (buffer : Buf)
    (cap : Nat) (ns pod : List Nat) (hM : (M : Int) ≤ INT_MAX) (hcap : (cap : Int) ≤ INT_MAX)
    (hns : (escText sg ns).length + 1 ≤ M) (hpod : (escText sg pod).length + 1 ≤ M)
    (hpath : (lit "/api/v1/namespaces/" ++ escText sg ns ++ lit "/pods/" ++ escText sg pod
      ++ lit "/attach").length < M)
    (hlen : (lit "/api/v1/namespaces/" ++ escText sg ns ++ lit "/pods/" ++ escText sg pod
      ++ lit "/attach?stdin=true&stdout=true&tty=true").length + 2 ≤ cap)
    (hbuf : cap ≤ buffer.length) :
    ∃ out, guac_kubernetes_endpoint_uri sg M junk buffer (cap : Int) ns pod none none
        = some (0, out)
      ∧ cstr out = lit "/api/v1/namespaces/" ++ escText sg ns ++ lit "/pods/"
          ++ escText sg pod ++ lit "/attach?stdin=true&stdout=true&tty=true" := by
  have e1 : lit "/" ++ lit "attach" = lit "/attach" := by decide
  have e2 : lit "/" ++ (lit "attach" ++ ([63] ++ lit "stdin=true&stdout=true&tty=true"))
      = lit "/attach?stdin=true&stdout=true&tty=true" := by decide
  have hp : pathText sg ns pod none = lit "/api/v1/namespaces/" ++ escText sg ns
      ++ lit "/pods/" ++ escText sg pod ++ lit "/attach" := by
    simp only [pathText, verbText, Option.isSome_none, Bool.false_eq_true, if_false,
      List.append_assoc, e1]
  have hu : uriText sg M ns pod none none = lit "/api/v1/namespaces/" ++ escText sg ns
      ++ lit "/pods/" ++ escText sg pod ++ lit "/attach?stdin=true&stdout=true&tty=true" := by
    simp only [uriText, paramsText, paramsAfter, pathText, verbText, Option.isSome_none,
      Bool.false_eq_true, if_false, List.append_assoc, List.nil_append, e2]
  have hfit : uriFits sg M ns pod none none = true := by
    rw [uriFits_iff, hp]
    exact ⟨hns, hpod, hpath, rfl, rfl⟩
  obtain ⟨out, h1, h2⟩ := endpoint_uri_ok sg M junk buffer cap ns pod none none hM hcap hfit
    (by rw [hu]; exact hlen) hbuf
  exact ⟨out, h1, by rw [h2.cstr_eq, hu]⟩

/-- Witness of C4: namespace `ns1` and pod `pod1` yield
`/api/v1/namespaces/ns1/pods/pod1/attach?stdin=true&stdout=true&tty=true`. -/
theorem C4_attach_output_witness :
    (lit "/api/v1/namespaces/" ++ escText true (lit "ns1") ++ lit "/pods/"
        ++ escText true (lit "pod1") ++ lit "/attach?stdin=true&stdout=true&tty=true"
      = lit "/api/v1/namespaces/ns1/pods/pod1/attach?stdin=true&stdout=true&tty=true")
    ∧ ∃ out, guac_kubernetes_endpoint_uri true 1024 (fun _ _ => 0) (List.replicate 80 0)
          ((80 : Nat) : Int) (lit "ns1") (lit "pod1") none none = some (0, out)
        ∧ cstr out = lit "/api/v1/namespaces/" ++ escText true (lit "ns1") ++ lit "/pods/"
            ++ escText true (lit "pod1") ++ lit "/attach?stdin=true&stdout=true&tty=true" :=
  ⟨by decide, C4_attach_output true 1024 (fun _ _ => 0) (List.replicate 80 0) 80 (lit "ns1")
    (lit "pod1") (by decide) (by decide) (by decide) (by decide) (by decide) (by decide)
    (by decide)⟩

/-- C5: when the buffer holds the NUL-free string `s` followed by a NUL, the
escaped value fits its array and `len(s) + 1 + len(n) + 1 + len(esc(v)) + 1`
is at most the capacity (an `int`, not larger than the array), the appender
returns 0 and the buffer afterwards holds `s`, the delimiter (`?` if `s` has
no `?`, else `&`), `n`, `=` and esc(v), followed by a NUL. -/
theorem C5_append_result (sg : Bool) (M : Nat) (junk : Nat → Nat) (s rest : List Nat)
    (cap : Nat) (n v : List Nat) (hs : ∀ x ∈ s, x ≠ 0) (hn : ∀ x ∈ n, x ≠ 0)
    (hv : (escText sg v).length + 1 ≤ M)
    (hfit : s.length + 1 + n.length + 1 + (escText sg v).length + 1 ≤ cap)
    (hbuf : cap ≤ (s ++ 0 :: rest).length) (hcap : (cap : Int) ≤ INT_MAX) :
    ∃ rest1, guac_kubernetes_append_endpoint_param sg M junk (s ++ 0 :: rest) (cap : Int) n v
      = some (0, (s ++ (if s.contains 63 then 38 else 63) :: n ++ 61 :: escText sg v)
          ++ 0 :: rest1) := by
  have hH : Holds (s ++ 0 :: rest) s := ⟨hs, rest, rfl⟩
  obtain ⟨b1, h1, h2, _⟩ := append_holds sg M junk (s ++ 0 :: rest) cap n v s hH (by omega)
    hbuf hcap hv
  have hl := paramText_length sg s n v
  rw [cstr_of_ne_zero n hn] at hl
  rw [if_pos (by omega)] at h1
  rw [List.take_of_length_le (by omega)] at h2
  obtain ⟨_, rest1, hr⟩ := h2
  refine ⟨rest1, ?_⟩
  rw [h1, hr]
  simp [paramText, cstr_of_ne_zero n hn]

/-- Witness of C5: `/a/b/c` with (`foo`, `bar`) gives `/a/b/c?foo=bar`, and
that with (`container`, `baz`) gives `/a/b/c?foo=bar&container=baz`. -/
theorem C5_append_result_witness :
    (lit "/a/b/c" ++ (if (lit "/a/b/c").contains 63 then 38 else 63) :: lit "foo"
        ++ 61 :: escText true (lit "bar") = lit "/a/b/c?foo=bar")
    ∧ (lit "/a/b/c?foo=bar" ++ (if (lit "/a/b/c?foo=bar").contains 63 then 38 else 63)
        :: lit "container" ++ 61 :: escText true (lit "baz")
      = lit "/a/b/c?foo=bar&container=baz")
    ∧ (∃ rest1, guac_kubernetes_append_endpoint_param true 1024 (fun _ => 0)
        (lit "/a/b/c" ++ 0 :: List.replicate 57 0) ((64 : Nat) : Int) (lit "foo") (lit "bar")
      = some (0, (lit "/a/b/c" ++ (if (lit "/a/b/c").contains 63 then 38 else 63)
          :: lit "foo" ++ 61 :: escText true (lit "bar")) ++ 0 :: rest1))
    ∧ (∃ rest1, guac_kubernetes_append_endpoint_param true 1024 (fun _ => 0)
        (lit "/a/b/c?foo=bar" ++ 0 :: List.replicate 49 0) ((64 : Nat) : Int)
        (lit "container") (lit "baz")
      = some (0, (lit "/a/b/c?foo=bar"
          ++ (if (lit "/a/b/c?foo=bar").contains 63 then 38 else 63)
          :: lit "container" ++ 61 :: escText true (lit "baz")) ++ 0 :: rest1)) :=
  ⟨by decide, by decide,
    C5_append_result true 1024 (fun _ => 0) (lit "/a/b/c") (List.replicate 57 0) 64
      (lit "foo") (lit "bar") (by decide) (by decide) (by decide) (by decide) (by decide)
      (by decide),
    C5_append_result true 1024 (fun _ => 0) (lit "/a/b/c?foo=bar") (List.replicate 49 0) 64
      (lit "container") (lit "baz") (by decide) (by decide) (by decide) (by decide)
      (by decide) (by decide)⟩

/-- C6 (fails on the code): with the buffer `/a/b/c` of capacity 10, name
`foo` and value `bar`, the text `?foo=bar` and its terminator need 15 bytes;
the appender stores the cut text `?fo` and returns 0. -/
theorem C6_append_reports_success_on_truncation (sg : Bool) (junk : Nat → Nat) :
    (lit "/a/b/c").length + 1 + (lit "foo").length + 1 + (escText sg (lit "bar")).length + 1
        > 10
      ∧ ∃ rest1, guac_kubernetes_append_endpoint_param sg 1024 junk
          (lit "/a/b/c" ++ [0, 0, 0, 0]) 10 (lit "foo") (lit "bar")
        = some (0, lit "/a/b/c?fo" ++ 0 :: rest1) := by
  have hv : escText sg (lit "bar") = lit "bar" := by cases sg <;> decide
  have hp : paramText sg (lit "/a/b/c") (lit "foo") (lit "bar") = lit "?foo=bar" := by
    cases sg <;> decide
  refine ⟨by rw [hv]; decide, ?_⟩
  obtain ⟨b1, h1, h2, _⟩ := append_holds sg 1024 junk (lit "/a/b/c" ++ [0, 0, 0, 0]) 10
    (lit "foo") (lit "bar") (lit "/a/b/c") ⟨by decide, [0, 0, 0], rfl⟩ (by decide)
    (by decide) (by decide) (by rw [hv]; decide)
  rw [hp] at h1 h2
  obtain ⟨_, rest1, hr⟩ := h2
  refine ⟨rest1, ?_⟩
  rw [show ((10 : Nat) : Int) = 10 from rfl] at h1
  rw [h1, hr]
  rfl

/-- C7 (fails on the code): with `M = 1024`, a command of 1000 letters `a` and
a container of 20 letters `b`, each parameter alone is shorter than `M`, the
builder returns 0, and the output carries only `container=bbb`: the complete
text `container=` followed by 20 letters `b` does not occur in it. -/
theorem C7_container_silently_truncated (sg : Bool) (junk : Nat → Nat → Nat)
    (fill : Nat → Nat) :
    ∃ out, guac_kubernetes_endpoint_uri sg 1024 junk (uninit fill 2048) 2048 (lit "ns1")
        (lit "pod1") (some (List.replicate 20 98)) (some (List.replicate 1000 97))
        = some (0, out)
      ∧ cstr out = lit "/api/v1/namespaces/ns1/pods/pod1/exec??command="
          ++ List.replicate 1000 97 ++ lit "&container=bbbstdin=true&stdout=true&tty=true"
      ∧ ¬ (lit "container=" ++ escText sg (List.replicate 20 98)) <:+: cstr out := by
  have hEc : escText sg (List.replicate 1000 97) = List.replicate 1000 97 :=
    escText_of_safe sg _ (fun c hc => by
      rw [(List.mem_replicate.1 hc).2]; cases sg <;> decide)
  have hEb : escText sg (List.replicate 20 98) = List.replicate 20 98 :=
    escText_of_safe sg _ (fun c hc => by
      rw [(List.mem_replicate.1 hc).2]; cases sg <;> decide)
  have hP1 : paramText sg [] (lit "command") (List.replicate 1000 97)
      = lit "?command=" ++ List.replicate 1000 97 := by
    unfold paramText
    rw [hEc, show cstr (lit "command") = lit "command" from by decide,
      show lit "?command=" = 63 :: lit "command" ++ [61] from by decide]
    generalize List.replicate 1000 97 = R
    simp
  have hl1 : (lit "?command=" ++ List.replicate 1000 97).length = 1009 := by
    rw [List.length_append, List.length_replicate]
    decide
  have hQ1 : paramsAfter sg 1024 [] (lit "command") (some (List.replicate 1000 97))
      = lit "?command=" ++ List.replicate 1000 97 := by
    simp only [paramsAfter, List.nil_append, hP1]
    exact List.take_of_length_le (by rw [hl1]; decide)
  have hP2 : paramText sg (lit "?command=" ++ List.replicate 1000 97) (lit "container")
      (List.replicate 20 98) = lit "&container=bbb" ++ List.replicate 17 98 := by
    unfold paramText
    rw [hEb, show cstr (lit "container") = lit "container" from by decide,
      show lit "?command=" = 63 :: lit "command=" from by decide]
    simp only [List.cons_append, List.contains_cons, beq_self_eq_true, Bool.true_or, if_true]
    decide
  have hQ2 : paramsText sg 1024 (some (List.replicate 20 98)) (some (List.replicate 1000 97))
      = lit "?command=" ++ List.replicate 1000 97 ++ lit "&container=bbb" := by
    unfold paramsText
    rw [hQ1]
    simp only [paramsAfter, hP2, hl1]
    rw [List.take_left' (by decide)]
  have hpath : pathText sg (lit "ns1") (lit "pod1") (some (List.replicate 1000 97))
      = lit "/api/v1/namespaces/ns1/pods/pod1/exec" := by
    have : pathText sg (lit "ns1") (lit "pod1") (some (List.replicate 1000 97))
        = pathText sg (lit "ns1") (lit "pod1") (some []) := rfl
    rw [this]
    cases sg <;> decide
  have htxt : uriText sg 1024 (lit "ns1") (lit "pod1") (some (List.replicate 20 98))
      (some (List.replicate 1000 97))
      = lit "/api/v1/namespaces/ns1/pods/pod1/exec??command="
          ++ List.replicate 1000 97 ++ lit "&container=bbbstdin=true&stdout=true&tty=true" := by
    unfold uriText
    rw [hQ2, hpath,
      show lit "/api/v1/namespaces/ns1/pods/pod1/exec??command="
        = lit "/api/v1/namespaces/ns1/pods/pod1/exec" ++ 63 :: lit "?command=" from by decide,
      show lit "&container=bbbstdin=true&stdout=true&tty=true"
        = lit "&container=bbb" ++ lit "stdin=true&stdout=true&tty=true" from by decide]
    generalize List.replicate 1000 97 = R
    simp
  have hlen : (lit "/api/v1/namespaces/ns1/pods/pod1/exec??command="
      ++ List.replicate 1000 97 ++ lit "&container=bbbstdin=true&stdout=true&tty=true").length
      + 2 ≤ 2048 := by
    simp only [List.length_append, List.length_replicate]
    decide
  have hfit : uriFits sg 1024 (lit "ns1") (lit "pod1") (some (List.replicate 20 98))
      (some (List.replicate 1000 97)) = true := by
    rw [uriFits_iff, hpath, hQ1]
    refine ⟨by cases sg <;> decide, by cases sg <;> decide, by decide, ?_, ?_⟩
    · simp only [paramFits, hEc, hP1, hl1, List.length_replicate]
      decide
    · simp only [paramFits, hEb, hP2, List.length_append, List.length_replicate]
      decide
  obtain ⟨out, h1, h2⟩ := endpoint_uri_ok sg 1024 junk (uninit fill 2048) 2048 (lit "ns1")
    (lit "pod1") (some (List.replicate 20 98)) (some (List.replicate 1000 97)) (by decide)
    (by decide) hfit (by rw [htxt]; exact hlen) (by simp [uninit_length])
  refine ⟨out, h1, by rw [h2.cstr_eq, htxt], ?_⟩
  rw [h2.cstr_eq, htxt]
  intro hin
  have hc := hin.sublist.count_le 98
  have c1 : (lit "container=").count 98 = 0 := by decide
  have c2 : (lit "/api/v1/namespaces/ns1/pods/pod1/exec??command=").count 98 = 0 := by decide
  have c3 : (lit "&container=bbbstdin=true&stdout=true&tty=true").count 98 = 3 := by decide
  rw [hEb] at hc
  simp only [List.count_append, List.count_replicate, c1, c2, c3] at hc
  simp at hc

/-- C8 (fails on the code): for namespace `ns1` and pod `pod1` without
container and command the URI has 71 bytes; at capacity 72 the buffer receives
the complete URI and its terminator, and the builder returns 1. -/
theorem C8_exact_capacity_is_rejected (sg : Bool) (junk : Nat → Nat → Nat)
    (fill : Nat → Nat) :
    (lit "/api/v1/namespaces/ns1/pods/pod1/attach?stdin=true&stdout=true&tty=true").length + 1
        = 72
      ∧ ∃ out, guac_kubernetes_endpoint_uri sg 1024 junk (uninit fill 72) 72 (lit "ns1")
          (lit "pod1") none none = some (1, out)
        ∧ cstr out
          = lit "/api/v1/namespaces/ns1/pods/pod1/attach?stdin=true&stdout=true&tty=true" := by
  have hfit : uriFits sg 1024 (lit "ns1") (lit "pod1") none none = true := by
    cases sg <;> decide
  have htxt : uriText sg 1024 (lit "ns1") (lit "pod1") none none
      = lit "/api/v1/namespaces/ns1/pods/pod1/attach?stdin=true&stdout=true&tty=true" := by
    cases sg <;> decide
  have hl : (uriText sg 1024 (lit "ns1") (lit "pod1") none none).length + 1 = 72 := by
    rw [htxt]; decide
  obtain ⟨out, h1, h2⟩ := endpoint_uri_exact_capacity sg 1024 junk (uninit fill 72)
    (lit "ns1") (lit "pod1") none none (by decide) (by rw [htxt]; decide) hfit
    (by rw [hl, uninit_length])
  rw [hl] at h1
  exact ⟨by decide, out, h1, by rw [h2.cstr_eq, htxt]⟩

/-- C9 (fails on the code): for namespace `ns1`, pod `pod1`, container `main`
and command `/bin/bash` the builder returns 0 and the output contains two `?`
bytes. -/
theorem C9_exec_output_has_two_question_marks (sg : Bool) (junk : Nat → Nat → Nat)
    (fill : Nat → Nat) :
    ∃ out, guac_kubernetes_endpoint_uri sg 1024 junk (uninit fill 256) 256 (lit "ns1")
        (lit "pod1") (some (lit "main")) (some (lit "/bin/bash")) = some (0, out)
      ∧ (cstr out).count 63 = 2 := by
  have hfit : uriFits sg 1024 (lit "ns1") (lit "pod1") (some (lit "main"))
      (some (lit "/bin/bash")) = true := by
    cases sg <;> decide
  have hcount : (uriText sg 1024 (lit "ns1") (lit "pod1") (some (lit "main"))
      (some (lit "/bin/bash"))).count 63 = 2 := by
    cases sg <;> decide
  obtain ⟨out, h1, h2⟩ := endpoint_uri_ok sg 1024 junk (uninit fill 256) 256 (lit "ns1")
    (lit "pod1") (some (lit "main")) (some (lit "/bin/bash")) (by decide) (by decide) hfit
    (by cases sg <;> decide) (by simp [uninit_length])
  exact ⟨out, h1, by rw [h2.cstr_eq, hcount]⟩

/-- C10: whenever the builder returns 0 (with `length` and `2 * M + 30` in the
range of `int`), the output contains exactly seven `/` bytes; it is the
literal text of the two formats around esc(namespace), esc(pod) and an initial
part of the parameter text, which is made of the literal names, delimiters and
escaped values; and no escaped value contains any of the bytes `/`, `?`, `&`,
`=` and space. -/
theorem C10_injection_safety (sg : Bool) (M : Nat) (junk : Nat → Nat → Nat) (buffer : Buf)
    (length : Int) (ns pod : List Nat) (cont cmd : Option (List Nat)) (out : Buf)
    (hM : 2 * (M : Int) + 30 ≤ INT_MAX) (hlen : length ≤ INT_MAX)
    (h : guac_kubernetes_endpoint_uri sg M junk buffer length ns pod cont cmd
      = some (0, out)) :
    (cstr out).count 47 = 7
      ∧ (∃ params, params <+: paramsFull sg cont cmd
          ∧ cstr out = lit "/api/v1/namespaces/" ++ escText sg ns ++ lit "/pods/"
              ++ escText sg pod ++ lit "/" ++ verbText cmd ++ 63 :: params
              ++ lit "stdin=true&stdout=true&tty=true")
      ∧ (∀ v ∈ [ns, pod] ++ cont.toList ++ cmd.toList, ∀ b ∈ escText sg v,
          b ≠ 47 ∧ b ≠ 63 ∧ b ≠ 38 ∧ b ≠ 61 ∧ b ≠ 32) := by
  obtain ⟨hfit, _, hout⟩ := endpoint_uri_zero sg M junk buffer length ns pod cont cmd hM hlen
    out h
  refine ⟨?_, ⟨paramsText sg M cont cmd, paramsText_prefix sg M ns pod cont cmd hfit, ?_⟩, ?_⟩
  · rw [hout.cstr_eq]
    exact uriText_count_slash sg M ns pod cont cmd
  · rw [hout.cstr_eq]
    simp only [uriText, pathText, List.append_assoc]
  · intro v _ b hb
    have := escText_not_structural sg v b hb
    simp only [isStructural, Bool.or_eq_false_iff, beq_eq_false_iff_ne, ne_eq] at this
    omega

/-- Witness of C10: a namespace, a pod, a container and a command that all
contain structural bytes. -/
theorem C10_injection_safety_witness :
    ∃ out, (2 * ((1024 : Nat) : Int) + 30 ≤ INT_MAX) ∧ ((256 : Int) ≤ INT_MAX)
      ∧ guac_kubernetes_endpoint_uri true 1024 (fun _ _ => 0) (List.replicate 256 0) 256
          (lit "a/b") (lit "p?q") (some (lit "c&d=e")) (some (lit "/bin/sh -c")) = some (0, out)
      ∧ (cstr out).count 47 = 7
      ∧ (∃ params, params <+: paramsFull true (some (lit "c&d=e")) (some (lit "/bin/sh -c"))
          ∧ cstr out = lit "/api/v1/namespaces/" ++ escText true (lit "a/b") ++ lit "/pods/"
              ++ escText true (lit "p?q") ++ lit "/" ++ verbText (some (lit "/bin/sh -c"))
              ++ 63 :: params ++ lit "stdin=true&stdout=true&tty=true")
      ∧ (∀ v ∈ [lit "a/b", lit "p?q"] ++ (some (lit "c&d=e")).toList
            ++ (some (lit "/bin/sh -c")).toList, ∀ b ∈ escText true v,
          b ≠ 47 ∧ b ≠ 63 ∧ b ≠ 38 ∧ b ≠ 61 ∧ b ≠ 32) := by
  obtain ⟨out, h1, _⟩ := endpoint_uri_ok true 1024 (fun _ _ => 0) (List.replicate 256 0) 256
    (lit "a/b") (lit "p?q") (some (lit "c&d=e")) (some (lit "/bin/sh -c")) (by decide)
    (by decide) (by decide) (by decide) (by rw [List.length_replicate])
  exact ⟨out, by decide, by decide, h1,
    C10_injection_safety true 1024 (fun _ _ => 0) (List.replicate 256 0) 256 (lit "a/b")
      (lit "p?q") (some (lit "c&d=e")) (some (lit "/bin/sh -c")) out (by decide) (by decide)
      h1⟩

/-- C11: whenever the escaper returns 0 on a NUL-free string of bytes, the
output array holds a text followed by a NUL; every byte of the text is
unreserved, a `%` or an uppercase hexadecimal digit; and read from the left
the text is made of unreserved bytes and of triplets `%XX` with two uppercase
hexadecimal digits. -/
theorem C11_output_well_formed (sg : Bool) (output : Buf) (capacity : Int) (str : List Nat)
    (o : Buf) (hstr : ∀ b ∈ str, 1 ≤ b ∧ b ≤ 255)
    (h : guac_kubernetes_escape_url_component sg output capacity str = some (0, o)) :
    ∃ text rest, o = text ++ 0 :: rest ∧ cstr o = text
      ∧ (∀ b ∈ text, isUnreserved b = true ∨ b = 37 ∨ isUpperHex b = true)
      ∧ isEscapedForm text = true := by
  obtain ⟨_, hH⟩ := escape_zero sg output capacity str o h
  have hc := hH.cstr_eq
  obtain ⟨_, rest, hr⟩ := hH
  refine ⟨escText sg str, rest, hr, hc, ?_, escText_form sg str hstr⟩
  intro b hb
  rcases escText_mem sg str b hb with ⟨h0, hm, hs⟩ | ht
  · have hb1 := hstr b hm
    left
    rw [← safe_eq_unreserved sg b (by omega) hb1.1]
    exact hs
  · right
    simp only [isTripletByte, Bool.or_eq_true, beq_iff_eq, Bool.and_eq_true,
      decide_eq_true_eq] at ht
    simp only [isUpperHex, Bool.or_eq_true, Bool.and_eq_true, decide_eq_true_eq]
    omega

/-- Witness of C11: the output for `a/b c` is `a%2Fb%20c`. -/
theorem C11_output_well_formed_witness :
    (∀ b ∈ lit "a/b c", 1 ≤ b ∧ b ≤ 255)
      ∧ guac_kubernetes_escape_url_component true (List.replicate 10 7) 10 (lit "a/b c")
        = some (0, lit "a%2Fb%20c" ++ [0])
      ∧ ∃ text rest, lit "a%2Fb%20c" ++ [0] = text ++ 0 :: rest
        ∧ cstr (lit "a%2Fb%20c" ++ [0]) = text
        ∧ (∀ b ∈ text, isUnreserved b = true ∨ b = 37 ∨ isUpperHex b = true)
        ∧ isEscapedForm text = true :=
  ⟨by decide, by decide,
    C11_output_well_formed true (List.replicate 10 7) 10 (lit "a/b c")
      (lit "a%2Fb%20c" ++ [0]) (by decide) (by decide)⟩

/-- C12: whenever the builder returns 0 (with `length` and `2 * M + 30` in the
range of `int`), the output begins with `/api/v1/namespaces/` and ends with
`stdin=true&stdout=true&tty=true`. -/
theorem C12_fixed_flags_last (sg : Bool) (M : Nat) (junk : Nat → Nat → Nat) (buffer : Buf)
    (length : Int) (ns pod : List Nat) (cont cmd : Option (List Nat)) (out : Buf)
    (hM : 2 * (M : Int) + 30 ≤ INT_MAX) (hlen : length ≤ INT_MAX)
    (h : guac_kubernetes_endpoint_uri sg M junk buffer length ns pod cont cmd
      = some (0, out)) :
    lit "/api/v1/namespaces/" <+: cstr out
      ∧ lit "stdin=true&stdout=true&tty=true" <:+ cstr out := by
  obtain ⟨_, _, hout⟩ := endpoint_uri_zero sg M junk buffer length ns pod cont cmd hM hlen
    out h
  rw [hout.cstr_eq]
  constructor
  · simp only [uriText, pathText, List.append_assoc]
    exact List.prefix_append _ _
  · unfold uriText
    exact List.suffix_append _ _

/-- Witness of C12: an exec call with a container. -/
theorem C12_fixed_flags_last_witness :
    ∃ out, (2 * ((1024 : Nat) : Int) + 30 ≤ INT_MAX) ∧ ((256 : Int) ≤ INT_MAX)
      ∧ guac_kubernetes_endpoint_uri true 1024 (fun _ _ => 0) (List.replicate 256 0) 256
          (lit "ns1") (lit "pod1") (some (lit "main")) (some (lit "/bin/bash")) = some (0, out)
      ∧ lit "/api/v1/namespaces/" <+: cstr out
      ∧ lit "stdin=true&stdout=true&tty=true" <:+ cstr out := by
  obtain ⟨out, h1, _⟩ := endpoint_uri_ok true 1024 (fun _ _ => 0) (List.replicate 256 0) 256
    (lit "ns1") (lit "pod1") (some (lit "main")) (some (lit "/bin/bash")) (by decide)
    (by decide) (by decide) (by decide) (by rw [List.length_replicate])
  exact ⟨out, by decide, by decide, h1,
    C12_fixed_flags_last true 1024 (fun _ _ => 0) (List.replicate 256 0) 256 (lit "ns1")
      (lit "pod1") (some (lit "main")) (some (lit "/bin/bash")) out (by decide) (by decide)
      h1⟩

/-- C13: whenever the builder returns 0 (with `length` and `2 * M + 30` in the
range of `int`), the part of the output before its first `?` is
`/api/v1/namespaces/` esc(namespace) `/pods/` esc(pod) `/` and the verb, which
is `exec` if a command was supplied, also an empty one, and `attach`
otherwise, whatever the container is. -/
theorem C13_verb_and_path (sg : Bool) (M : Nat) (junk : Nat → Nat → Nat) (buffer : Buf)
    (length : Int) (ns pod : List Nat) (cont cmd : Option (List Nat)) (out : Buf)
    (hM : 2 * (M : Int) + 30 ≤ INT_MAX) (hlen : length ≤ INT_MAX)
    (h : guac_kubernetes_endpoint_uri sg M junk buffer length ns pod cont cmd
      = some (0, out)) :
    (cstr out).takeWhile (fun b => b != 63)
      = lit "/api/v1/namespaces/" ++ escText sg ns ++ lit "/pods/" ++ escText sg pod
          ++ lit "/" ++ (if cmd.isSome then lit "exec" else lit "attach") := by
  obtain ⟨_, _, hout⟩ := endpoint_uri_zero sg M junk buffer length ns pod cont cmd hM hlen
    out h
  rw [hout.cstr_eq]
  have hp := takeWhile_append_of_ne 63 (pathText sg ns pod cmd)
    (paramsText sg M cont cmd ++ lit "stdin=true&stdout=true&tty=true")
    (pathText_no_question_mark sg ns pod cmd)
  have hu : uriText sg M ns pod cont cmd = pathText sg ns pod cmd
      ++ 63 :: (paramsText sg M cont cmd ++ lit "stdin=true&stdout=true&tty=true") := by
    simp only [uriText, List.append_assoc, List.cons_append]
  rw [hu, hp]
  rfl

/-- Witness of C13: an empty command selects `exec`. -/
theorem C13_verb_and_path_witness :
    ∃ out, (2 * ((1024 : Nat) : Int) + 30 ≤ INT_MAX) ∧ ((256 : Int) ≤ INT_MAX)
      ∧ guac_kubernetes_endpoint_uri true 1024 (fun _ _ => 0) (List.replicate 256 0) 256
          (lit "ns1") (lit "pod1") none (some []) = some (0, out)
      ∧ (cstr out).takeWhile (fun b => b != 63)
        = lit "/api/v1/namespaces/" ++ escText true (lit "ns1") ++ lit "/pods/"
            ++ escText true (lit "pod1") ++ lit "/"
            ++ (if (some ([] : List Nat)).isSome then lit "exec" else lit "attach")
      ∧ lit "/api/v1/namespaces/" ++ escText true (lit "ns1") ++ lit "/pods/"
            ++ escText true (lit "pod1") ++ lit "/"
            ++ (if (some ([] : List Nat)).isSome then lit "exec" else lit "attach")
        = lit "/api/v1/namespaces/ns1/pods/pod1/exec" := by
  obtain ⟨out, h1, _⟩ := endpoint_uri_ok true 1024 (fun _ _ => 0) (List.replicate 256 0) 256
    (lit "ns1") (lit "pod1") none (some []) (by decide)
    (by decide) (by decide) (by decide) (by rw [List.length_replicate])
  exact ⟨out, by decide, by decide, h1,
    C13_verb_and_path true 1024 (fun _ _ => 0) (List.replicate 256 0) 256 (lit "ns1")
      (lit "pod1") none (some []) out (by decide) (by decide) h1, by decide⟩

/-- C14: on an input made only of unreserved bytes, with a capacity of at
least the length of the input plus one (and not larger than the array), the
escaper returns 0 and the output is the input followed by a NUL. -/
theorem C14_identity_on_unreserved (sg : Bool) (output : Buf) (cap : Nat) (str : List Nat)
    (hstr : ∀ b ∈ str, isUnreserved b = true) (hcap : str.length + 1 ≤ cap)
    (hbuf : cap ≤ output.length) :
    ∃ o, guac_kubernetes_escape_url_component sg output (cap : Int) str = some (0, o)
      ∧ cstr o = str ∧ ∃ rest, o = str ++ 0 :: rest := by
  have he : escText sg str = str := by
    apply escText_of_safe
    intro c hc
    have hu := hstr c hc
    have hr := isUnreserved_range c hu
    exact ⟨by omega, (safe_eq_unreserved sg c (by omega) hr.1).trans hu⟩
  obtain ⟨o, h1, h2, _⟩ := escape_ok sg output cap str (by rw [he]; exact hcap) hbuf
  rw [he] at h2
  exact ⟨o, h1, h2.cstr_eq, h2.2⟩

/-- Witness of C14: the input `Az09-_.!~*'()` at capacity 14. -/
theorem C14_identity_on_unreserved_witness :
    (∀ b ∈ lit "Az09-_.!~*'()", isUnreserved b = true)
      ∧ ∃ o, guac_kubernetes_escape_url_component true (List.replicate 14 7) ((14 : Nat) : Int)
          (lit "Az09-_.!~*'()") = some (0, o)
        ∧ cstr o = lit "Az09-_.!~*'()" ∧ ∃ rest, o = lit "Az09-_.!~*'()" ++ 0 :: rest :=
  ⟨by decide,
    C14_identity_on_unreserved true (List.replicate 14 7) 14 (lit "Az09-_.!~*'()")
      (by decide) (by decide) (by decide)⟩

/-- C17: when esc(namespace) or esc(pod) with its terminator needs more than
`M` bytes, or the formatted path has `M` bytes or more, the builder returns 1
and leaves the output buffer alone, whatever the capacity, the container and
the command are (`M` in the range of `int`). -/
theorem C17_failure_propagation (sg : Bool) (M : Nat) (junk : Nat → Nat → Nat) (buffer : Buf)
    (length : Int) (ns pod : List Nat) (cont cmd : Option (List Nat))
    (hM : (M : Int) ≤ INT_MAX)
    (h : M < (escText sg ns).length + 1 ∨ M < (escText sg pod).length + 1
      ∨ M ≤ (lit "/api/v1/namespaces/" ++ escText sg ns ++ lit "/pods/" ++ escText sg pod
          ++ lit "/" ++ (if cmd.isSome then lit "exec" else lit "attach")).length) :
    guac_kubernetes_endpoint_uri sg M junk buffer length ns pod cont cmd
      = some (1, buffer) := by
  have hc := endpoint_uri_cases sg M junk buffer length ns pod cont cmd hM
  have hn : ¬ uriFits sg M ns pod cont cmd = true := by
    rw [uriFits_iff]
    rintro ⟨h1, h2, h3, _, _⟩
    have h3a : (lit "/api/v1/namespaces/" ++ escText sg ns ++ lit "/pods/" ++ escText sg pod
        ++ lit "/" ++ (if cmd.isSome then lit "exec" else lit "attach")).length < M := h3
    omega
  rw [if_neg hn] at hc
  exact hc

/-- Witness of C17: with `M = 1024`, a namespace of 1024 letters `a`. -/
theorem C17_failure_propagation_witness :
    (((1024 : Nat) : Int) ≤ INT_MAX)
      ∧ (1024 < (escText true (List.replicate 1024 97)).length + 1
        ∨ 1024 < (escText true (lit "pod1")).length + 1
        ∨ 1024 ≤ (lit "/api/v1/namespaces/" ++ escText true (List.replicate 1024 97)
            ++ lit "/pods/" ++ escText true (lit "pod1") ++ lit "/"
            ++ (if (none : Option (List Nat)).isSome then lit "exec" else lit "attach")).length)
      ∧ guac_kubernetes_endpoint_uri true 1024 (fun _ _ => 0) (List.replicate 4096 0) 4096
          (List.replicate 1024 97) (lit "pod1") (some (lit "main")) none
        = some (1, List.replicate 4096 0) := by
  have he : escText true (List.replicate 1024 97) = List.replicate 1024 97 :=
    escText_of_safe true _ (fun c hc => by rw [(List.mem_replicate.1 hc).2]; decide)
  have hh : 1024 < (escText true (List.replicate 1024 97)).length + 1
      ∨ 1024 < (escText true (lit "pod1")).length + 1
      ∨ 1024 ≤ (lit "/api/v1/namespaces/" ++ escText true (List.replicate 1024 97)
          ++ lit "/pods/" ++ escText true (lit "pod1") ++ lit "/"
          ++ (if (none : Option (List Nat)).isSome then lit "exec" else lit "attach")).length :=
    Or.inl (by rw [he, List.length_replicate]; decide)
  exact ⟨by decide, hh,
    C17_failure_propagation true 1024 (fun _ _ => 0) (List.replicate 4096 0) 4096
      (List.replicate 1024 97) (lit "pod1") (some (lit "main")) none (by decide) hh⟩

/-- C15: for a capacity of at least 1, (a) on every buffer whose first
`capacity` bytes contain no NUL the appender returns 1 for every name and
value and leaves the buffer as it was; (b) on a buffer whose terminator is at
index `capacity - 1` or earlier the scan is not left through `return 1`: it
ends at the terminator with the length of the string. -/
theorem C15_unterminated_buffer_rejected (sg : Bool) (M : Nat) (junk : Nat → Nat) (cap : Nat)
    (hcap : 1 ≤ cap) :
    (∀ (buffer : Buf) (name value : List Nat), cap ≤ buffer.length →
        (∀ x ∈ buffer.take cap, x ≠ 0) →
        guac_kubernetes_append_endpoint_param sg M junk buffer (cap : Int) name value
          = some (1, buffer))
      ∧ (∀ s rest : List Nat, (∀ x ∈ s, x ≠ 0) → s.length + 1 ≤ cap →
        scan_loop (cap : Int) (s ++ 0 :: rest) 0 false
          = Scan.done s.length (s.contains 63)) := by
  constructor
  · intro buffer name value hlen hnz
    by_cases hv : (escText sg value).length + 1 ≤ M
    · obtain ⟨o, ho, _, _⟩ := escape_ok sg (uninit junk M) M value hv
        (by simp [uninit_length])
      have hscan := scan_loop_unterminated (cap : Int) buffer 0 false cap hcap
        (by simp) hlen hnz
      unfold guac_kubernetes_append_endpoint_param
      rw [ho]
      simp only [ne_eq, not_true_eq_false, if_false, hscan]
    · exact append_escape_fail sg M junk buffer (cap : Int) name value (by omega)
  · intro s rest hs hl
    have := scan_loop_holds (cap : Int) rest s 0 false hs
      (Or.inl (by simp only [Nat.zero_add]; exact_mod_cast hl))
    simpa using this

/-- Witness of C15: capacity 4 with the bytes `abcd` and no NUL among them, and
capacity 4 with the string `abc` terminated at index 3. -/
theorem C15_unterminated_buffer_rejected_witness :
    (1 ≤ 4) ∧ (4 ≤ (lit "abcdef").length) ∧ (∀ x ∈ (lit "abcdef").take 4, x ≠ 0)
      ∧ guac_kubernetes_append_endpoint_param true 1024 (fun _ => 0) (lit "abcdef")
          ((4 : Nat) : Int) (lit "foo") (lit "bar") = some (1, lit "abcdef")
      ∧ (∀ x ∈ lit "abc", x ≠ 0) ∧ ((lit "abc").length + 1 ≤ 4)
      ∧ scan_loop ((4 : Nat) : Int) (lit "abc" ++ 0 :: []) 0 false
          = Scan.done (lit "abc").length ((lit "abc").contains 63) :=
  ⟨by decide, by decide, by decide,
    (C15_unterminated_buffer_rejected true 1024 (fun _ => 0) 4 (by decide)).1 (lit "abcdef")
      (lit "foo") (lit "bar") (by decide) (by decide),
    by decide, by decide,
    (C15_unterminated_buffer_rejected true 1024 (fun _ => 0) 4 (by decide)).2 (lit "abc") []
      (by decide) (by decide)⟩

/-- C16: on an output array of at least `capacity` bytes the escaper returns a
result, success or failure, without any store outside the array (a store
outside yields `none`; the array may have exactly `capacity` bytes), and every
byte of the array at an index of `capacity` or above is left as it was. -/
theorem C16_bounds_safety (sg : Bool) (output : Buf) (capacity : Int) (str : List Nat)
    (hbuf : capacity.toNat ≤ output.length) :
    ∃ r o, guac_kubernetes_escape_url_component sg output capacity str = some (r, o)
      ∧ o.length = output.length
      ∧ o.drop capacity.toNat = output.drop capacity.toNat := by
  obtain ⟨r, o, h⟩ := escape_total sg output capacity str hbuf
  obtain ⟨h1, h2⟩ := escape_loop_frame sg str output 0 capacity r o (by omega) h
  rw [Nat.zero_add] at h2
  exact ⟨r, o, h, h1, h2⟩

/-- Witness of C16: a success on an array of exactly 5 bytes, and a failure at
capacity 4 that leaves the two bytes above the capacity alone. -/
theorem C16_bounds_safety_witness :
    ((5 : Int).toNat ≤ (List.replicate 5 7).length)
      ∧ (∃ r o, guac_kubernetes_escape_url_component true (List.replicate 5 7) 5 (lit "a/")
          = some (r, o) ∧ o.length = (List.replicate 5 7).length
        ∧ o.drop (5 : Int).toNat = (List.replicate 5 7).drop (5 : Int).toNat)
      ∧ ((4 : Int).toNat ≤ (List.replicate 6 7).length)
      ∧ (∃ r o, guac_kubernetes_escape_url_component true (List.replicate 6 7) 4 (lit "a/")
          = some (r, o) ∧ o.length = (List.replicate 6 7).length
        ∧ o.drop (4 : Int).toNat = (List.replicate 6 7).drop (4 : Int).toNat) :=
  ⟨by decide, C16_bounds_safety true (List.replicate 5 7) 5 (lit "a/") (by decide),
    by decide, C16_bounds_safety true (List.replicate 6 7) 4 (lit "a/") (by decide)⟩

/-- C18: on a string whose bytes all lie in 0x01..0x7F, with a capacity of at
least `N = 1 + (number of unreserved bytes) + 3 * (number of other bytes)`
(and not larger than the array), the escaper returns 0 and percent decoding
its output yields the input; and two such strings on which the escaper
returns 0 with the same output are equal. -/
theorem C18_round_trip_7bit (sg : Bool) (output : Buf) (cap : Nat) (str : List Nat)
    (h7 : ∀ b ∈ str, 1 ≤ b ∧ b ≤ 127) (hcap : requiredCapacity str ≤ cap)
    (hbuf : cap ≤ output.length) :
    (∃ o, guac_kubernetes_escape_url_component sg output (cap : Int) str = some (0, o)
        ∧ percentDecode (cstr o) = str)
      ∧ (∀ (str2 : List Nat) (output1 output2 : Buf) (cap1 cap2 : Int) (o1 o2 : Buf),
        (∀ b ∈ str2, 1 ≤ b ∧ b ≤ 127) →
        guac_kubernetes_escape_url_component sg output1 cap1 str = some (0, o1) →
        guac_kubernetes_escape_url_component sg output2 cap2 str2 = some (0, o2) →
        cstr o1 = cstr o2 → str = str2) := by
  have hN := escText_length sg str (fun b hb => ⟨(h7 b hb).1, by have := (h7 b hb).2; omega⟩)
  constructor
  · obtain ⟨o, h1, h2, _⟩ := escape_ok sg output cap str (by omega) hbuf
    exact ⟨o, h1, by rw [h2.cstr_eq]; exact percentDecode_escText sg str h7⟩
  · intro str2 output1 output2 cap1 cap2 o1 o2 h72 h1 h2 heq
    have e1 := (escape_zero sg output1 cap1 str o1 h1).2.cstr_eq
    have e2 := (escape_zero sg output2 cap2 str2 o2 h2).2.cstr_eq
    rw [e1, e2] at heq
    rw [← percentDecode_escText sg str h7, ← percentDecode_escText sg str2 h72, heq]

/-- Witness of C18: the input `a/b c` at capacity 10. -/
theorem C18_round_trip_7bit_witness :
    (∀ b ∈ lit "a/b c", 1 ≤ b ∧ b ≤ 127) ∧ (requiredCapacity (lit "a/b c") ≤ 10)
      ∧ (10 ≤ (List.replicate 10 7).length)
      ∧ (∃ o, guac_kubernetes_escape_url_component true (List.replicate 10 7)
            ((10 : Nat) : Int) (lit "a/b c") = some (0, o)
          ∧ percentDecode (cstr o) = lit "a/b c")
      ∧ percentDecode (lit "a%2Fb%20c") = lit "a/b c" :=
  ⟨by decide, by decide, by decide,
    (C18_round_trip_7bit true (List.replicate 10 7) 10 (lit "a/b c") (by decide) (by decide)
      (by decide)).1, by decide⟩

/-- C19: for NUL-free strings of bytes `a` and `b` and capacities that cover
each result, the three calls of the escaper on `a`, `b` and `a ++ b` return 0
and the output for `a ++ b` is the output for `a` followed by the output for
`b`; the output for the empty string is the empty string; and two calls on
the same input that return 0 give the same output, whatever their capacities
and arrays are. -/
theorem C19_concatenation (sg : Bool) (a b : List Nat) (out1 out2 out3 : Buf)
    (c1 c2 c3 : Nat) (ha : ∀ x ∈ a, 1 ≤ x ∧ x ≤ 255) (hb : ∀ x ∈ b, 1 ≤ x ∧ x ≤ 255)
    (h1 : requiredCapacity a ≤ c1) (h2 : requiredCapacity b ≤ c2)
    (h3 : requiredCapacity (a ++ b) ≤ c3) (hb1 : c1 ≤ out1.length) (hb2 : c2 ≤ out2.length)
    (hb3 : c3 ≤ out3.length) :
    (∃ o1 o2 o3,
        guac_kubernetes_escape_url_component sg out1 (c1 : Int) a = some (0, o1)
        ∧ guac_kubernetes_escape_url_component sg out2 (c2 : Int) b = some (0, o2)
        ∧ guac_kubernetes_escape_url_component sg out3 (c3 : Int) (a ++ b) = some (0, o3)
        ∧ cstr o3 = cstr o1 ++ cstr o2)
      ∧ (∀ (out : Buf) (cap : Nat), 1 ≤ cap → cap ≤ out.length →
        ∃ o, guac_kubernetes_escape_url_component sg out (cap : Int) [] = some (0, o)
          ∧ cstr o = [])
      ∧ (∀ (str : List Nat) (out out' : Buf) (cap cap' : Int) (o o' : Buf),
        guac_kubernetes_escape_url_component sg out cap str = some (0, o) →
        guac_kubernetes_escape_url_component sg out' cap' str = some (0, o') →
        cstr o = cstr o') := by
  have hab : ∀ x ∈ a ++ b, 1 ≤ x ∧ x ≤ 255 := by
    intro x hx
    rcases List.mem_append.1 hx with h | h
    · exact ha x h
    · exact hb x h
  have n1 := escText_length sg a ha
  have n2 := escText_length sg b hb
  have n3 := escText_length sg (a ++ b) hab
  refine ⟨?_, ?_, ?_⟩
  · obtain ⟨o1, e1, g1, _⟩ := escape_ok sg out1 c1 a (by omega) hb1
    obtain ⟨o2, e2, g2, _⟩ := escape_ok sg out2 c2 b (by omega) hb2
    obtain ⟨o3, e3, g3, _⟩ := escape_ok sg out3 c3 (a ++ b) (by omega) hb3
    refine ⟨o1, o2, o3, e1, e2, e3, ?_⟩
    rw [g1.cstr_eq, g2.cstr_eq, g3.cstr_eq]
    exact escText_append sg a b (fun x hx => by have := (ha x hx).1; omega)
  · intro out cap hc hl
    obtain ⟨o, e, g, _⟩ := escape_ok sg out cap [] (by simpa [escText] using hc) hl
    exact ⟨o, e, by rw [g.cstr_eq]; rfl⟩
  · intro str out out' cap cap' o o' e e'
    rw [(escape_zero sg out cap str o e).2.cstr_eq,
      (escape_zero sg out' cap' str o' e').2.cstr_eq]

/-- Witness of C19: `a/` and `b c` with capacities 5, 6 and 10. -/
theorem C19_concatenation_witness :
    (∀ x ∈ lit "a/", 1 ≤ x ∧ x ≤ 255) ∧ (∀ x ∈ lit "b c", 1 ≤ x ∧ x ≤ 255)
      ∧ requiredCapacity (lit "a/") ≤ 5 ∧ requiredCapacity (lit "b c") ≤ 6
      ∧ requiredCapacity (lit "a/" ++ lit "b c") ≤ 10
      ∧ ∃ o1 o2 o3,
        guac_kubernetes_escape_url_component true (List.replicate 5 7) ((5 : Nat) : Int)
            (lit "a/") = some (0, o1)
        ∧ guac_kubernetes_escape_url_component true (List.replicate 6 7) ((6 : Nat) : Int)
            (lit "b c") = some (0, o2)
        ∧ guac_kubernetes_escape_url_component true (List.replicate 10 7) ((10 : Nat) : Int)
            (lit "a/" ++ lit "b c") = some (0, o3)
        ∧ cstr o3 = cstr o1 ++ cstr o2 :=
  ⟨by decide, by decide, by decide, by decide, by decide,
    (C19_concatenation true (lit "a/") (lit "b c") (List.replicate 5 7) (List.replicate 6 7)
      (List.replicate 10 7) 5 6 10 (by decide) (by decide) (by decide) (by decide)
      (by decide) (by decide) (by decide) (by decide)).1⟩

end GuacK8s
